import Mathlib

/-!
Verification of the dispatch / aggregation layer of `sir3d.synth.multiprocessing`
(`par-sir` repository, file `src/mods/sir3d/synth/multiprocessing.py`).

The development shallowly embeds the `Iterator` class: the numpy primitives it
relies on (`arange`, `meshgrid` + `flatten`, `array_split`, integer fancy
indexing), the serial fallback `nonmpi_work`, the coordinator loop
`mpi_master_work`, the worker loop `mpi_agents_work`, and the constructor
`__init__`.  The physics model (`synth` / `synth2d`) and the loaded quantity
cubes are external collaborators; they appear as opaque function fields of the
`SirModel` structure, with rational numbers standing in for the floating-point
values (so the elementwise `vz / rho` division is exact).  Fallible Python code
(exceptions) is embedded with `Except String` results, and runs that raise
after performing observable writes return a record that carries both the
writes performed so far and the pending error.
-/

set_option maxHeartbeats 1000000
set_option linter.unusedVariables false

namespace ParSir

/-- numpy integer index resolution on an axis of length `n`: an index in
`[0, n)` is used as is, an index in `[-n, 0)` wraps around to `n + i`, and
anything else raises `IndexError`. -/
def npIndex (n : Nat) (i : Int) : Option Nat :=
  if 0 ≤ i ∧ i < (n : Int) then some i.toNat
  else if -(n : Int) ≤ i ∧ i < 0 then some ((n : Int) + i).toNat
  else none

/-- Integer `np.arange a b`: the integers `a, a+1, ..., b-1` (empty if `b ≤ a`). -/
def arange (a b : Int) : List Int :=
  (List.range (b - a).toNat).map fun (k : Nat) => a + (k : Int)

/-- Sizes of the pieces produced by `np.array_split` on `n` elements and `k`
sections: `n % k` pieces of size `n / k + 1` followed by pieces of size `n / k`. -/
def splitSizes (n k : Nat) : List Nat :=
  (List.range k).map fun i => if i < n % k then n / k + 1 else n / k

/-- Cut a list into consecutive pieces of the given sizes. -/
def splitBySizes {α : Type} : List α → List Nat → List (List α)
  | _, [] => []
  | xs, s :: ss => xs.take s :: splitBySizes (xs.drop s) ss

/-- `np.array_split xs k`; raises `ValueError` when `k = 0`
("number sections must be larger than 0"). -/
def arraySplit {α : Type} (xs : List α) (k : Nat) : Except String (List (List α)) :=
  if k = 0 then Except.error "ValueError"
  else Except.ok (splitBySizes xs (splitSizes xs.length k))

/-- `np.meshgrid(x, y)` followed by flattening both coordinate arrays and
zipping them: row-major over `y` then `x`, producing `(x_i, y_j)` pairs.  The
source keeps the two flattened arrays `X` and `Y` separate; since
`array_split` cuts both at identical positions, we embed the zipped list. -/
def meshPixels (x y : List Int) : List (Int × Int) :=
  y.flatMap fun yj => x.map fun xi => (xi, yj)

/-- A depth profile of one physical quantity at one pixel (`self.T[:,iy,ix]`). -/
abbrev Profile := List ℚ

/-- A single-pixel stokes block: rows are the 5 output channels
(`lambda, I, Q, U, V`), each a list of spectral points. -/
abbrev Stokes := List (List ℚ)

/-- A single-pixel resampled-model block: 7 physical channels of `n_tau`
depth samples. -/
abbrev MInterp := List (List ℚ)

/-- The model object handed to `Iterator.use_model`, restricted to the fields
the dispatch code reads.  The quantity cubes (`T`, ..., `ne`) are the arrays
produced by the loader after the `(az, ay, ax)` transposition, addressed as
`(depth, y, x)`; the loader itself is an external collaborator.  `synth` is
the single-pixel entry point (used by `nonmpi_work`), `synth2d` the batched
one (used by `mpi_agents_work`); `synth2d` results are represented
pixel-major: one `Stokes` (resp. `MInterp`) block per pixel. -/
structure SirModel where
  nx : Nat
  ny : Nat
  ndep : Nat
  nLambdaSir : Nat
  nTau : Nat
  vzType : String
  interpolatedModelFilename : Option String
  lambdaZeropoint : ℚ
  T : Nat → Nat → Nat → ℚ
  P : Nat → Nat → Nat → ℚ
  rho : Nat → Nat → Nat → ℚ
  vz : Nat → Nat → Nat → ℚ
  Bx : Nat → Nat → Nat → ℚ
  By : Nat → Nat → Nat → ℚ
  Bz : Nat → Nat → Nat → ℚ
  tau500 : Nat → Nat → Nat → ℚ
  ne : Nat → Nat → Nat → ℚ
  synth : Profile → Profile → Profile → Profile → Profile → Profile → Profile → Profile →
    Profile → Bool → Stokes × MInterp
  synth2d : List Profile → List Profile → List Profile → List Profile → List Profile →
    List Profile → List Profile → List Profile → List Profile → Bool →
    List Stokes × List MInterp

/-- The depth column of a quantity cube at pixel `(iy, ix)`:
`q[:, iy, ix]` for a cube addressed `(depth, y, x)`. -/
def SirModel.col (m : SirModel) (q : Nat → Nat → Nat → ℚ) (iy ix : Nat) : Profile :=
  (List.range m.ndep).map fun d => q d iy ix

/-- Elementwise division of two depth profiles (numpy broadcasting of `/`). -/
def divProfile (a b : Profile) : Profile :=
  List.zipWith (fun u v => u / v) a b

/-- The four per-channel rows written for one pixel (`stokes[1,:]` ... `stokes[4,:]`). -/
structure ChannelRows where
  rowI : List ℚ
  rowQ : List ℚ
  rowU : List ℚ
  rowV : List ℚ
deriving DecidableEq, Repr

/-- Extract the four written channel rows from a single-pixel stokes block. -/
def rowsOf (s : Stokes) : ChannelRows :=
  { rowI := s.getD 1 [], rowQ := s.getD 2 [], rowU := s.getD 3 [], rowV := s.getD 4 [] }

/-- The `vz` column that `nonmpi_work` computes for pixel `(iy, ix)`:
divided by `rho` unless `vz_type` is the string `vz` (lines 157-160). -/
def serialVz (m : SirModel) (iy ix : Nat) : Profile :=
  if m.vzType = "vz" then m.col m.vz iy ix
  else divProfile (m.col m.vz iy ix) (m.col m.rho iy ix)

/-- The single-pixel synthesis call of `nonmpi_work` (lines 162-171).  In the
interpolating branch the transformed `vz` is passed; in the other branch the
source passes the raw column `self.vz[:,iy,ix]` even though the transformed
`vz` was just computed. -/
def serialSynthAt (m : SirModel) (interp : Bool) (iy ix : Nat) : Stokes × MInterp :=
  if interp then
    m.synth (m.col m.T iy ix) (m.col m.P iy ix) (m.col m.rho iy ix) (serialVz m iy ix)
      (m.col m.Bx iy ix) (m.col m.By iy ix) (m.col m.Bz iy ix)
      (m.col m.tau500 iy ix) (m.col m.ne iy ix) true
  else
    m.synth (m.col m.T iy ix) (m.col m.P iy ix) (m.col m.rho iy ix) (m.col m.vz iy ix)
      (m.col m.Bx iy ix) (m.col m.By iy ix) (m.col m.Bz iy ix)
      (m.col m.tau500 iy ix) (m.col m.ne iy ix) false

/-- Observable outcome of a `nonmpi_work` run.  Pixel keys are `(iy, ix)`.
`err` records an exception raised after the recorded writes happened. -/
structure SerialResult where
  modelDbShape : Option (List Nat)
  stokesWrites : List ((Nat × Nat) × ChannelRows)
  modelWrites : List ((Nat × Nat) × MInterp)
  lambdaWritten : Option (List ℚ)
  stokesClosed : Bool
  modelClosed : Bool
  err : Option String
deriving DecidableEq, Repr

/-- The raster-order pixel sequence of the serial loops
(`for iy in trange(ny): for ix in trange(nx)`), keys `(iy, ix)`. -/
def serialGrid (m : SirModel) : List (Nat × Nat) :=
  (List.range m.ny).flatMap fun iy => (List.range m.nx).map fun ix => (iy, ix)

/-- `Iterator.nonmpi_work` (lines 85-181).  `rangex` and `rangey` are accepted
but never read, exactly as in the source.  The nested pixel loops carry no
state between iterations apart from the `stokes` local, so they are embedded
as a map over the raster-order pixel list, with `stokes` after the loop being
the last computed block.  After the loops the source writes `lambda_db` from
the last `stokes` (a `NameError` if no pixel existed), closes the spectra
file, and unconditionally closes `self.f_model_out` - an `AttributeError`
when no interpolated model was requested, since that handle is only created
under `interpolated_model_filename is not None`. -/
def nonmpi_work (m : SirModel) (rangex rangey : Option (Int × Int)) : SerialResult :=
  let interp := m.interpolatedModelFilename.isSome
  let pix := serialGrid m
  let results := pix.map fun p => (p, serialSynthAt m interp p.1 p.2)
  let stokesWrites := results.map fun pr => (pr.1, rowsOf pr.2.1)
  let modelWrites := if interp then results.map fun pr => (pr.1, pr.2.2) else []
  let modelDbShape := if interp then some [m.ny, m.nx, 7, m.nTau] else none
  match (results.map fun pr => pr.2.1).getLast? with
  | none =>
    { modelDbShape := modelDbShape, stokesWrites := stokesWrites,
      modelWrites := modelWrites, lambdaWritten := none,
      stokesClosed := false, modelClosed := false, err := some "NameError" }
  | some s =>
    if interp then
      { modelDbShape := modelDbShape, stokesWrites := stokesWrites,
        modelWrites := modelWrites, lambdaWritten := some (s.getD 0 []),
        stokesClosed := true, modelClosed := true, err := none }
    else
      { modelDbShape := modelDbShape, stokesWrites := stokesWrites,
        modelWrites := modelWrites, lambdaWritten := some (s.getD 0 []),
        stokesClosed := true, modelClosed := false, err := some "AttributeError" }

/-- The x coordinates requested by `mpi_master_work` (lines 236-239):
`np.arange(rangex[0], rangex[1])` when a restriction is given, else
`np.arange(nx)`.  No bounds check is performed. -/
def requestedX (m : SirModel) (rangex : Option (Int × Int)) : List Int :=
  match rangex with
  | some r => arange r.1 r.2
  | none => arange 0 (m.nx : Int)

/-- The y coordinates requested by `mpi_master_work` (lines 241-244). -/
def requestedY (m : SirModel) (rangey : Option (Int × Int)) : List Int :=
  match rangey with
  | some r => arange r.1 r.2
  | none => arange 0 (m.ny : Int)

/-- The requested pixel list in dispatch order. -/
def requestedPixels (m : SirModel) (rangex rangey : Option (Int × Int)) : List (Int × Int) :=
  meshPixels (requestedX m rangex) (requestedY m rangey)

/-- The grid partitioner of `mpi_master_work` (lines 236-255): flatten the
meshgrid of the requested coordinates and `array_split` it into
`n_batches = n_pixels // batch` pieces.  Python `//` by zero raises
`ZeroDivisionError`; `array_split` raises `ValueError` on zero sections. -/
def partitionPixels (m : SirModel) (batch : Nat) (rangex rangey : Option (Int × Int)) :
    Except String (List (List (Int × Int))) :=
  let x := requestedX m rangex
  let y := requestedY m rangey
  let nPixels := x.length * y.length
  if batch = 0 then Except.error "ZeroDivisionError"
  else arraySplit (meshPixels x y) (nPixels / batch)

/-- Resolve one `(x, y)` requested coordinate against the cube extents with
numpy index semantics, giving the `(iy, ix)` storage location. -/
def resolvePix (m : SirModel) (p : Int × Int) : Option (Nat × Nat) := do
  let ix ← npIndex m.nx p.1
  let iy ← npIndex m.ny p.2
  pure (iy, ix)

/-- The fancy-indexed slice `q[:, iy, ix]` for a batch of resolved pixels:
one depth profile per pixel. -/
def sliceQ (m : SirModel) (q : Nat → Nat → Nat → ℚ) (rp : List (Nat × Nat)) : List Profile :=
  rp.map fun p => m.col q p.1 p.2

/-- The nine per-quantity slices carried inside a START message
(`data_to_send['model']`, lines 301-303). -/
structure QuantSlices where
  sT : List Profile
  sP : List Profile
  sRho : List Profile
  sVz : List Profile
  sBx : List Profile
  sBy : List Profile
  sBz : List Profile
  sTau : List Profile
  sNe : List Profile

/-- A START message (`data_to_send`, lines 294-303): batch index, the original
coordinate arrays, the interpolation flag and the quantity slices. -/
structure Task where
  index : Nat
  pix : List (Int × Int)
  interp : Bool
  slices : QuantSlices

/-- Build the START message for batch `k` (lines 288-303).  Fancy indexing of
the cubes resolves every coordinate of the batch; a coordinate outside
`[-n, n)` raises `IndexError` before anything is sent.  The `vz` slice is
divided elementwise by the `rho` slice unless `vz_type` is `vz`
(lines 296-299). -/
def taskFor (m : SirModel) (interp : Bool) (batches : List (List (Int × Int))) (k : Nat) :
    Except String Task :=
  let bpix := batches.getD k []
  match bpix.mapM (resolvePix m) with
  | none => Except.error "IndexError"
  | some rp =>
    let rawVz := sliceQ m m.vz rp
    let vzSlice := if m.vzType = "vz" then rawVz
      else List.zipWith divProfile rawVz (sliceQ m m.rho rp)
    Except.ok
      { index := k, pix := bpix, interp := interp,
        slices :=
          { sT := sliceQ m m.T rp, sP := sliceQ m m.P rp, sRho := sliceQ m m.rho rp,
            sVz := vzSlice, sBx := sliceQ m m.Bx rp, sBy := sliceQ m m.By rp,
            sBz := sliceQ m m.Bz rp, sTau := sliceQ m m.tau500 rp, sNe := sliceQ m m.ne rp } }

/-- A DONE message (`data_to_send` of `mpi_agents_work`, lines 369-379). -/
structure DoneMsg where
  index : Nat
  pix : List (Int × Int)
  stokes : List Stokes
  modelOut : Option (List MInterp)

/-- The worker body of `mpi_agents_work` on a START message (lines 363-381):
invoke `synth2d` on the received slices (with the received interpolation
flag) and echo index, coordinates, spectra and - when interpolating - the
resampled model. -/
def workerReply (m : SirModel) (t : Task) : DoneMsg :=
  if t.interp then
    let r := m.synth2d t.slices.sT t.slices.sP t.slices.sRho t.slices.sVz t.slices.sBx
      t.slices.sBy t.slices.sBz t.slices.sTau t.slices.sNe true
    { index := t.index, pix := t.pix, stokes := r.1, modelOut := some r.2 }
  else
    let r := m.synth2d t.slices.sT t.slices.sP t.slices.sRho t.slices.sVz t.slices.sBx
      t.slices.sBy t.slices.sBz t.slices.sTau t.slices.sNe false
    { index := t.index, pix := t.pix, stokes := r.1, modelOut := none }

/-- The writes the coordinator performs on a DONE message (lines 315-331):
for each pixel `i` of the result, the resampled-model slice (when
interpolating) at `[:, indY[i], indX[i], :]` and the four stokes rows at
`[indY[i], indX[i], :]`.  The write indices are the original message
coordinates, resolved again with numpy semantics. -/
def doneRecs (m : SirModel) (d : DoneMsg) :
    Except String (List ((Nat × Nat) × ChannelRows) × List ((Nat × Nat) × MInterp)) :=
  match d.pix.mapM (resolvePix m) with
  | none => Except.error "IndexError"
  | some rp =>
    let srecs := List.zipWith (fun p s => (p, rowsOf s)) rp d.stokes
    let mrecs := match d.modelOut with
      | some ms => List.zipWith (fun p mm => (p, mm)) rp ms
      | none => ([] : List ((Nat × Nat) × MInterp))
    Except.ok (srecs, mrecs)

/-- Worker progress as visible to the coordinator: `ready` - the worker will
send READY next; `computed k` - the worker received START for batch `k` and
will send the corresponding DONE next; `exiting` - the worker received EXIT
and will acknowledge next; `closed` - the worker acknowledged and stopped. -/
inductive WStatus
  | ready
  | computed (k : Nat)
  | exiting
  | closed
deriving DecidableEq, Repr

/-- The coordinator loop state of `mpi_master_work` (lines 274-337), together
with the issued-message record the claims talk about: `starts` is the list of
batch indices sent in START messages, in order, and `exitsSent` counts EXIT
messages.  `err` holds an exception raised inside the loop. -/
structure MasterState where
  taskIndex : Nat
  closedWorkers : Nat
  starts : List Nat
  exitsSent : Nat
  stokesWrites : List ((Nat × Nat) × ChannelRows)
  modelWrites : List ((Nat × Nat) × MInterp)
  lastStokes : Option (List Stokes)
  err : Option String

/-- Coordinator handling of one received message, by the sender status
(lines 284-337): a READY gets the next batch via START - or EXIT when all
batches are issued; a DONE gets its pixels written; an EXIT acknowledgement
bumps the closed-worker counter.  Building a START can raise `IndexError`
during slicing, before anything is sent and before `task_index` advances.
Compliant workers are deterministic, so the DONE message of the worker
holding batch `k` is recovered from `k` as `workerReply` of the task that
was built for it. -/
def handleMsg (m : SirModel) (interp : Bool) (batches : List (List (Int × Int)))
    (ms : MasterState) (st : WStatus) : MasterState × WStatus :=
  match st with
  | .ready =>
    if ms.taskIndex < batches.length then
      match taskFor m interp batches ms.taskIndex with
      | .error e => ({ ms with err := some e }, .ready)
      | .ok _ =>
        ({ ms with taskIndex := ms.taskIndex + 1, starts := ms.starts ++ [ms.taskIndex] },
          .computed ms.taskIndex)
    else
      ({ ms with exitsSent := ms.exitsSent + 1 }, .exiting)
  | .computed k =>
    match taskFor m interp batches k with
    | .error e => ({ ms with err := some e }, .ready)
    | .ok t =>
      let d := workerReply m t
      match doneRecs m d with
      | .error e => ({ ms with err := some e }, .ready)
      | .ok recs =>
        ({ ms with
           stokesWrites := ms.stokesWrites ++ recs.1,
           modelWrites := ms.modelWrites ++ recs.2,
           lastStokes := some d.stokes }, .ready)
  | .exiting => ({ ms with closedWorkers := ms.closedWorkers + 1 }, .closed)
  | .closed => (ms, .closed)

/-- Deliver the pending message of worker `w` to the coordinator, leaving the
other workers untouched.  An index beyond the worker list delivers nothing. -/
def stepAt (m : SirModel) (interp : Bool) (batches : List (List (Int × Int))) :
    MasterState → List WStatus → Nat → MasterState × List WStatus
  | ms, [], _ => (ms, [])
  | ms, st :: rest, 0 =>
    let r := handleMsg m interp batches ms st
    (r.1, r.2 :: rest)
  | ms, st :: rest, Nat.succ w =>
    let r := stepAt m interp batches ms rest w
    (r.1, st :: r.2)

/-- One iteration of the dispatch `while` loop: the loop runs only while
`closed_workers < num_workers` and no exception is pending; the schedule
entry chooses which worker the blocking `recv(source=MPI.ANY_SOURCE)`
happens to deliver. -/
def sysStep (m : SirModel) (interp : Bool) (batches : List (List (Int × Int)))
    (numWorkers : Nat) (s : MasterState × List WStatus) (w : Nat) :
    MasterState × List WStatus :=
  if s.1.err.isSome then s
  else if numWorkers ≤ s.1.closedWorkers then s
  else stepAt m interp batches s.1 s.2 w

/-- Run the dispatch loop over a message arrival schedule. -/
def sysRun (m : SirModel) (interp : Bool) (batches : List (List (Int × Int)))
    (numWorkers : Nat) (s : MasterState × List WStatus) (sched : List Nat) :
    MasterState × List WStatus :=
  sched.foldl (sysStep m interp batches numWorkers) s

/-- Initial coordinator loop state (lines 274-278). -/
def initMaster : MasterState :=
  { taskIndex := 0, closedWorkers := 0, starts := [], exitsSent := 0,
    stokesWrites := [], modelWrites := [], lastStokes := none, err := none }

/-- Observable outcome of an `mpi_master_work` run.  `created` records that
the output store was opened; `hung` that the schedule ended with the blocking
loop still waiting (an unresponsive-worker stall); `err` an exception. -/
structure MasterResult where
  created : Bool
  modelDbShape : Option (List Nat)
  stokesWrites : List ((Nat × Nat) × ChannelRows)
  modelWrites : List ((Nat × Nat) × MInterp)
  lambdaWritten : Option (List ℚ)
  starts : List Nat
  exitsSent : Nat
  closedWorkers : Nat
  storeClosed : Bool
  modelClosed : Bool
  hung : Bool
  err : Option String

/-- `Iterator.mpi_master_work` (lines 184-342) driven by compliant
`mpi_agents_work` workers: partition the requested pixels (an exception here
precedes store creation), create the output store - with the resampled-model
dataset shaped `(7, ny, nx, n_tau)` when interpolation is requested
(line 269) - run the dispatch loop over the arrival schedule, then write the
spectral axis from the last received result (`stokes[0,0,:]`, a `NameError`
if no DONE was ever received) and close the store. -/
def mpi_master_work (m : SirModel) (batch : Nat) (rangex rangey : Option (Int × Int))
    (numWorkers : Nat) (sched : List Nat) : MasterResult :=
  match partitionPixels m batch rangex rangey with
  | .error e =>
    { created := false, modelDbShape := none, stokesWrites := [], modelWrites := [],
      lambdaWritten := none, starts := [], exitsSent := 0, closedWorkers := 0,
      storeClosed := false, modelClosed := false, hung := false, err := some e }
  | .ok batches =>
    let interp := m.interpolatedModelFilename.isSome
    let shape := if interp then some [7, m.ny, m.nx, m.nTau] else none
    let fin := sysRun m interp batches numWorkers
      (initMaster, List.replicate numWorkers WStatus.ready) sched
    let ms := fin.1
    match ms.err with
    | some e =>
      { created := true, modelDbShape := shape, stokesWrites := ms.stokesWrites,
        modelWrites := ms.modelWrites, lambdaWritten := none, starts := ms.starts,
        exitsSent := ms.exitsSent, closedWorkers := ms.closedWorkers,
        storeClosed := false, modelClosed := false, hung := false, err := some e }
    | none =>
      if ms.closedWorkers < numWorkers then
        { created := true, modelDbShape := shape, stokesWrites := ms.stokesWrites,
          modelWrites := ms.modelWrites, lambdaWritten := none, starts := ms.starts,
          exitsSent := ms.exitsSent, closedWorkers := ms.closedWorkers,
          storeClosed := false, modelClosed := false, hung := true, err := none }
      else
        match ms.lastStokes with
        | none =>
          { created := true, modelDbShape := shape, stokesWrites := ms.stokesWrites,
            modelWrites := ms.modelWrites, lambdaWritten := none, starts := ms.starts,
            exitsSent := ms.exitsSent, closedWorkers := ms.closedWorkers,
            storeClosed := false, modelClosed := false, hung := false,
            err := some "NameError" }
        | some blocks =>
          { created := true, modelDbShape := shape, stokesWrites := ms.stokesWrites,
            modelWrites := ms.modelWrites,
            lambdaWritten := some ((blocks.getD 0 []).getD 0 []),
            starts := ms.starts, exitsSent := ms.exitsSent,
            closedWorkers := ms.closedWorkers, storeClosed := true,
            modelClosed := interp, hung := false, err := none }

/-- The constructor state stored by `Iterator.__init__` (lines 21-49):
`n_batches` is stored as `stop_after_n_batches`. -/
structure IteratorCfg where
  useMpi : Bool
  commSize : Nat
  batch : Nat
  stopAfterNBatches : Option Nat
deriving DecidableEq, Repr

/-- `Iterator.__init__` (lines 21-49): with `use_mpi` it requires mpi4py and
a communicator of size at least 2, raising before anything else happens;
no file is opened here. -/
def iteratorInit (mpiAvailable : Bool) (commSize : Nat) (useMpi : Bool) (batch : Nat)
    (nBatches : Option Nat) : Except String IteratorCfg :=
  if useMpi then
    if mpiAvailable = false then
      Except.error "You need MPI and mpi4py installed in your system to use this option."
    else if commSize = 1 then
      Except.error "You do not have agents available or you need to start the code with mpiexec."
    else
      Except.ok
        { useMpi := true, commSize := commSize, batch := batch,
          stopAfterNBatches := nBatches }
  else
    Except.ok
      { useMpi := false, commSize := 1, batch := batch,
        stopAfterNBatches := nBatches }

/-- `Iterator.run_all_pixels` as seen from rank 0 (lines 387-405): the
distributed coordinator when `use_mpi`, the serial fallback otherwise.
`num_workers = self.size - 1` (line 275). -/
def run_all_pixels (cfg : IteratorCfg) (m : SirModel) (rangex rangey : Option (Int × Int))
    (sched : List Nat) : Sum SerialResult MasterResult :=
  if cfg.useMpi then
    Sum.inr (mpi_master_work m cfg.batch rangex rangey (cfg.commSize - 1) sched)
  else
    Sum.inl (nonmpi_work m rangex rangey)

/-! ### Properties of the numpy primitives -/

theorem splitSizes_length (n k : Nat) : (splitSizes n k).length = k := by
  simp [splitSizes]

theorem splitSizes_mem {n k s : Nat} (h : s ∈ splitSizes n k) :
    s = n / k ∨ s = n / k + 1 := by
  simp only [splitSizes, List.mem_map, List.mem_range] at h
  obtain ⟨i, _, hi⟩ := h
  by_cases hc : i < n % k
  · right; simp [hc] at hi; omega
  · left; simp [hc] at hi; omega

theorem sum_range_if_lt (k r q : Nat) (h : r ≤ k) :
    (((List.range k).map fun i => if i < r then q + 1 else q)).sum = k * q + r := by
  induction k with
  | zero => simp; omega
  | succ k ih =>
    rw [List.range_succ, List.map_append, List.sum_append]
    rcases Nat.lt_or_ge k r with hk | hk
    · have hr : r = k + 1 := by omega
      subst hr
      have hall : ((List.range k).map fun i => if i < k + 1 then q + 1 else q)
          = (List.range k).map fun i => q + 1 := by
        apply List.map_congr_left
        intro a ha
        simp only [List.mem_range] at ha
        simp [Nat.lt_succ_of_lt ha]
      rw [hall]
      simp [List.map_const', List.sum_replicate, hk]
      ring
    · have := ih hk
      rw [this]
      have : ¬ k < r := by omega
      simp [this]
      ring

theorem splitSizes_sum (n k : Nat) (hk : 0 < k) : (splitSizes n k).sum = n := by
  unfold splitSizes
  rw [sum_range_if_lt k (n % k) (n / k) (Nat.le_of_lt (Nat.mod_lt n hk))]
  exact Nat.div_add_mod n k

theorem splitBySizes_flatten {α : Type} (ss : List Nat) (xs : List α) :
    (splitBySizes xs ss).flatten = xs.take ss.sum := by
  induction ss generalizing xs with
  | nil => simp [splitBySizes]
  | cons s ss ih =>
    simp only [splitBySizes, List.flatten_cons, ih, List.sum_cons]
    rw [List.take_add]

theorem splitBySizes_length {α : Type} (ss : List Nat) (xs : List α) :
    (splitBySizes xs ss).length = ss.length := by
  induction ss generalizing xs with
  | nil => simp [splitBySizes]
  | cons s ss ih => simp [splitBySizes, ih]

theorem splitBySizes_map_length {α : Type} (ss : List Nat) (xs : List α)
    (h : ss.sum ≤ xs.length) : (splitBySizes xs ss).map List.length = ss := by
  induction ss generalizing xs with
  | nil => simp [splitBySizes]
  | cons s ss ih =>
    simp only [List.sum_cons] at h
    have hs : s ≤ xs.length := by omega
    simp only [splitBySizes, List.map_cons, List.length_take, Nat.min_eq_left hs]
    rw [ih]
    simp only [List.length_drop]
    omega

theorem arange_nodup (a b : Int) : (arange a b).Nodup := by
  unfold arange
  refine List.Nodup.map ?_ (List.nodup_range _)
  intro u v huv
  simp only at huv
  omega

theorem arange_length (a b : Int) : (arange a b).length = (b - a).toNat := by
  unfold arange
  rw [List.length_map, List.length_range]

theorem mem_arange {a b i : Int} (h : i ∈ arange a b) : a ≤ i ∧ i < b := by
  unfold arange at h
  simp only [List.mem_map, List.mem_range] at h
  obtain ⟨k, hk, rfl⟩ := h
  omega

/-- A grid built by mapping an injective pairing over two duplicate-free lists
is duplicate-free. -/
theorem nodup_gridMap {α β γ : Type} (ys : List α) (xs : List β) (f : α → β → γ)
    (hinj : ∀ a a' b b', f a b = f a' b' → a = a' ∧ b = b')
    (hy : ys.Nodup) (hx : xs.Nodup) :
    (ys.flatMap fun a => xs.map fun b => f a b).Nodup := by
  induction ys with
  | nil => simp
  | cons a ys ih =>
    rw [List.flatMap_cons, List.nodup_append]
    refine ⟨?_, ih (List.Nodup.of_cons hy), ?_⟩
    · apply List.Nodup.map_on _ hx
      intro u hu v hv huv
      exact (hinj _ _ _ _ huv).2
    · intro z hz hz2
      simp only [List.mem_map] at hz
      obtain ⟨b, hb, rfl⟩ := hz
      simp only [List.mem_flatMap, List.mem_map] at hz2
      obtain ⟨a2, ha2, b2, hb2, hfe⟩ := hz2
      have := (hinj _ _ _ _ hfe.symm).1
      subst this
      exact (List.nodup_cons.mp hy).1 ha2

theorem meshPixels_nodup {x y : List Int} (hx : x.Nodup) (hy : y.Nodup) :
    (meshPixels x y).Nodup :=
  nodup_gridMap y x (fun yj xi => (xi, yj))
    (fun a a2 b b2 h => by
      simp only [Prod.mk.injEq] at h
      exact ⟨h.2, h.1⟩) hy hx

theorem meshPixels_length (x y : List Int) :
    (meshPixels x y).length = x.length * y.length := by
  unfold meshPixels
  induction y with
  | nil => simp
  | cons a ys ih => simp [ih]; ring

theorem requestedPixels_nodup (m : SirModel) (rangex rangey : Option (Int × Int)) :
    (requestedPixels m rangex rangey).Nodup := by
  apply meshPixels_nodup
  · cases rangex <;> exact arange_nodup _ _
  · cases rangey <;> exact arange_nodup _ _

theorem serialGrid_nodup (m : SirModel) : (serialGrid m).Nodup := by
  apply nodup_gridMap _ _ (fun iy ix => ((iy : Nat), (ix : Nat)))
  · intro a a2 b b2 h
    simpa using h
  · exact List.nodup_range _
  · exact List.nodup_range _

/-- The requested total pixel count `n_pixels` (line 246). -/
def nPixReq (m : SirModel) (rangex rangey : Option (Int × Int)) : Nat :=
  (requestedX m rangex).length * (requestedY m rangey).length

/-- Elimination form for a successful partition: the batch size was nonzero,
the section count `n_pixels // batch` was positive, and the pieces are the
`splitBySizes` cut of the flattened meshgrid. -/
theorem partition_ok_elim {m : SirModel} {batch : Nat}
    {rangex rangey : Option (Int × Int)} {bs : List (List (Int × Int))}
    (hok : partitionPixels m batch rangex rangey = Except.ok bs) :
    batch ≠ 0 ∧ 0 < nPixReq m rangex rangey / batch ∧
      bs = splitBySizes (requestedPixels m rangex rangey)
        (splitSizes (requestedPixels m rangex rangey).length
          (nPixReq m rangex rangey / batch)) := by
  unfold partitionPixels at hok
  by_cases hb : batch = 0
  · simp [hb] at hok
  · simp only [hb, if_false] at hok
    unfold arraySplit at hok
    by_cases hk : nPixReq m rangex rangey / batch = 0
    · rw [if_pos] at hok
      · cases hok
      · exact hk
    · rw [if_neg] at hok
      · refine ⟨hb, Nat.pos_of_ne_zero hk, ?_⟩
        cases hok
        rfl
      · exact hk

theorem partition_flatten {m : SirModel} {batch : Nat}
    {rangex rangey : Option (Int × Int)} {bs : List (List (Int × Int))}
    (hok : partitionPixels m batch rangex rangey = Except.ok bs) :
    bs.flatten = requestedPixels m rangex rangey := by
  obtain ⟨hb, hk, hbs⟩ := partition_ok_elim hok
  subst hbs
  rw [splitBySizes_flatten, splitSizes_sum _ _ hk, List.take_length]

theorem partition_length {m : SirModel} {batch : Nat}
    {rangex rangey : Option (Int × Int)} {bs : List (List (Int × Int))}
    (hok : partitionPixels m batch rangex rangey = Except.ok bs) :
    bs.length = nPixReq m rangex rangey / batch := by
  obtain ⟨hb, hk, hbs⟩ := partition_ok_elim hok
  subst hbs
  rw [splitBySizes_length, splitSizes_length]

theorem requestedPixels_length (m : SirModel) (rangex rangey : Option (Int × Int)) :
    (requestedPixels m rangex rangey).length = nPixReq m rangex rangey :=
  meshPixels_length _ _

theorem partition_piece_length {m : SirModel} {batch : Nat}
    {rangex rangey : Option (Int × Int)} {bs : List (List (Int × Int))}
    (hok : partitionPixels m batch rangex rangey = Except.ok bs)
    {piece : List (Int × Int)} (hmem : piece ∈ bs) :
    piece.length = nPixReq m rangex rangey / (nPixReq m rangex rangey / batch) ∨
      piece.length = nPixReq m rangex rangey / (nPixReq m rangex rangey / batch) + 1 := by
  obtain ⟨hb, hk, hbs⟩ := partition_ok_elim hok
  have hlen : (requestedPixels m rangex rangey).length = nPixReq m rangex rangey :=
    requestedPixels_length m rangex rangey
  have hmap : bs.map List.length =
      splitSizes (requestedPixels m rangex rangey).length (nPixReq m rangex rangey / batch) := by
    rw [hbs]
    apply splitBySizes_map_length
    rw [splitSizes_sum _ _ hk]
  have : piece.length ∈ splitSizes (requestedPixels m rangex rangey).length
      (nPixReq m rangex rangey / batch) := by
    rw [← hmap]
    exact List.mem_map_of_mem _ hmem
  rw [hlen] at this
  exact splitSizes_mem this

theorem partition_piece_ne_nil {m : SirModel} {batch : Nat}
    {rangex rangey : Option (Int × Int)} {bs : List (List (Int × Int))}
    (hok : partitionPixels m batch rangex rangey = Except.ok bs)
    {piece : List (Int × Int)} (hmem : piece ∈ bs) : piece ≠ [] := by
  obtain ⟨hb, hk, hbs⟩ := partition_ok_elim hok
  have hkn : nPixReq m rangex rangey / batch ≤ nPixReq m rangex rangey :=
    Nat.div_le_self _ _
  have hpos : 1 ≤ nPixReq m rangex rangey / (nPixReq m rangex rangey / batch) :=
    (Nat.one_le_div_iff hk).mpr hkn
  rcases partition_piece_length hok hmem with h | h <;>
    (apply List.ne_nil_of_length_pos; omega)

/-! ### Concrete instances used to exercise the theorems -/

/-- An all-zero quantity cube. -/
def zeroCube : Nat → Nat → Nat → ℚ := fun _ _ _ => 0

/-- A small concrete model: constant cubes with `rho = 2` and `vz = 6`, and a
physics stub whose spectrum echoes the `vz` profile it was given (so the two
dispatch paths are distinguishable exactly when they feed different
velocities), with `synth2d` acting pixelwise exactly as `synth`. -/
def testModel (nx ny : Nat) (vzty : String) (interp : Option String) : SirModel :=
  { nx := nx, ny := ny, ndep := 1, nLambdaSir := 1, nTau := 5,
    vzType := vzty, interpolatedModelFilename := interp, lambdaZeropoint := 0,
    T := zeroCube, P := zeroCube, rho := fun _ _ _ => 2, vz := fun _ _ _ => 6,
    Bx := zeroCube, By := zeroCube, Bz := zeroCube, tau500 := zeroCube, ne := zeroCube,
    synth := fun t p r v b1 b2 b3 ta nel flag =>
      ([[0], [v.getD 0 0], [0], [0], [0]], [[1]]),
    synth2d := fun ts ps rs vs b1s b2s b3s tas nels flag =>
      ((List.range ts.length).map fun i => [[0], [(vs.getD i []).getD 0 0], [0], [0], [0]],
       (List.range ts.length).map fun i => [[1]]) }

/-! ### C3 - partition completeness and disjointness -/

/-- C3: for every grid (optionally restricted to a sub-rectangle) and batch
size, the batches produced by the partitioner (meshgrid flatten followed by
`array_split`) have pairwise disjoint pixel sets whose union (indeed, whose
concatenation) is exactly the full requested pixel list. -/
theorem claim_C3_partition_cover (m : SirModel) (batch : Nat)
    (rangex rangey : Option (Int × Int)) (bs : List (List (Int × Int)))
    (hok : partitionPixels m batch rangex rangey = Except.ok bs) :
    bs.flatten = requestedPixels m rangex rangey ∧
      List.Pairwise List.Disjoint bs := by
  have hflat := partition_flatten hok
  refine ⟨hflat, ?_⟩
  have hnd : bs.flatten.Nodup := by
    rw [hflat]
    exact requestedPixels_nodup m rangex rangey
  exact (List.nodup_flatten.mp hnd).2

/-- The four batches of the 4x4 grid with batch size 4 (the spec scenario). -/
def bs4C3 : List (List (Int × Int)) :=
  [[(0, 0), (1, 0), (2, 0), (3, 0)],
   [(0, 1), (1, 1), (2, 1), (3, 1)],
   [(0, 2), (1, 2), (2, 2), (3, 2)],
   [(0, 3), (1, 3), (2, 3), (3, 3)]]

theorem claim_C3_witness :
    partitionPixels (testModel 4 4 "vz" none) 4 none none = Except.ok bs4C3 ∧
      (bs4C3.flatten = requestedPixels (testModel 4 4 "vz" none) none none ∧
        List.Pairwise List.Disjoint bs4C3) := by
  have hok : partitionPixels (testModel 4 4 "vz" none) 4 none none = Except.ok bs4C3 := by
    rfl
  exact ⟨hok, claim_C3_partition_cover _ _ _ _ _ hok⟩

/-! ### C4 - batch count, near-equal sizes, and the `b > n` case -/

/-- Introduction form for a successful partition. -/
theorem partition_ok_intro (m : SirModel) (batch : Nat)
    (rangex rangey : Option (Int × Int)) (hb : batch ≠ 0)
    (hk : nPixReq m rangex rangey / batch ≠ 0) :
    partitionPixels m batch rangex rangey =
      Except.ok (splitBySizes (requestedPixels m rangex rangey)
        (splitSizes (requestedPixels m rangex rangey).length
          (nPixReq m rangex rangey / batch))) := by
  unfold nPixReq at hk
  unfold partitionPixels arraySplit nPixReq requestedPixels
  rw [if_neg hb, if_neg hk]

/-- C4 counterexample: with 2 requested pixels and batch size 3 the claimed
clamping does not happen; `n_batches = 2 // 3 = 0` and `array_split` raises
`ValueError`, so the partition step fails rather than succeeding. -/
theorem claim_C4_counterexample :
    partitionPixels (testModel 2 1 "vz" none) 3 none none = Except.error "ValueError" := by
  rfl

/-- C4 (amended): with total pixel count `n` and batch size `b >= 1`, the
batch count is `n / b` and the remainder pixels are spread in near-equal,
never-empty, never-dropped pieces - provided `b <= n`; when `b > n` the batch
count underflows to zero and the partition step raises `ValueError` instead
of clamping the batch count. -/
theorem claim_C4_batch_count (m : SirModel) (batch : Nat)
    (rangex rangey : Option (Int × Int)) (hb : 1 ≤ batch) :
    (batch ≤ nPixReq m rangex rangey →
      ∃ bs, partitionPixels m batch rangex rangey = Except.ok bs ∧
        bs.length = nPixReq m rangex rangey / batch ∧
        bs.flatten.length = nPixReq m rangex rangey ∧
        ∀ piece ∈ bs, piece ≠ [] ∧
          (piece.length = nPixReq m rangex rangey / (nPixReq m rangex rangey / batch) ∨
            piece.length =
              nPixReq m rangex rangey / (nPixReq m rangex rangey / batch) + 1)) ∧
    (nPixReq m rangex rangey < batch →
      partitionPixels m batch rangex rangey = Except.error "ValueError") := by
  constructor
  · intro hle
    have hbpos : 0 < batch := hb
    have hk : nPixReq m rangex rangey / batch ≠ 0 := by
      have : 1 ≤ nPixReq m rangex rangey / batch := (Nat.one_le_div_iff hbpos).mpr hle
      omega
    have hok := partition_ok_intro m batch rangex rangey (by omega) hk
    refine ⟨_, hok, partition_length hok, ?_, ?_⟩
    · rw [partition_flatten hok, requestedPixels_length]
    · intro piece hmem
      exact ⟨partition_piece_ne_nil hok hmem, partition_piece_length hok hmem⟩
  · intro hlt
    have hk : nPixReq m rangex rangey / batch = 0 := Nat.div_eq_of_lt hlt
    unfold partitionPixels arraySplit
    have hb0 : ¬ batch = 0 := by omega
    simp only [hb0, if_false]
    rw [show (requestedX m rangex).length * (requestedY m rangey).length
        = nPixReq m rangex rangey from rfl, hk]
    rfl

theorem claim_C4_witness :
    partitionPixels (testModel 2 2 "vz" none) 5 none none = Except.error "ValueError" ∧
      ∃ bs, partitionPixels (testModel 2 2 "vz" none) 2 none none = Except.ok bs ∧
        bs.length = 2 := by
  constructor
  · exact (claim_C4_batch_count (testModel 2 2 "vz" none) 5 none none (by decide)).2
      (by decide)
  · obtain ⟨bs, hok, hlen, -, -⟩ :=
      (claim_C4_batch_count (testModel 2 2 "vz" none) 2 none none (by decide)).1 (by decide)
    refine ⟨bs, hok, ?_⟩
    rw [hlen]
    rfl

/-! ### C8 - distributed mode with a single process is rejected -/

/-- C8: constructing the iterator with `use_mpi=True` while the communicator
has exactly one process raises in `__init__`, before any file or output-store
handle exists (the constructor performs no I/O at all). -/
theorem claim_C8_single_process_rejected (batch : Nat) (nBatches : Option Nat) :
    iteratorInit true 1 true batch nBatches =
      Except.error
        "You do not have agents available or you need to start the code with mpiexec." := by
  rfl

/-! ### C10 - the stored `n_batches` constructor argument is never read -/

/-- C10: two runs identical except for the constructor argument `n_batches`
(stored as `stop_after_n_batches`) are observably identical: the field is
never read, so neither the constructor outcome nor any serial or distributed
run depends on it. -/
theorem claim_C10_nbatches_unread (useMpi : Bool) (commSize batch : Nat)
    (nb1 nb2 : Option Nat) (mpiAvailable : Bool) (m : SirModel)
    (rangex rangey : Option (Int × Int)) (sched : List Nat) :
    run_all_pixels ⟨useMpi, commSize, batch, nb1⟩ m rangex rangey sched =
        run_all_pixels ⟨useMpi, commSize, batch, nb2⟩ m rangex rangey sched ∧
      (iteratorInit mpiAvailable commSize useMpi batch nb1).toOption.isSome =
        (iteratorInit mpiAvailable commSize useMpi batch nb2).toOption.isSome := by
  constructor
  · rfl
  · unfold iteratorInit
    cases useMpi
    · rfl
    · cases mpiAvailable
      · rfl
      · by_cases h : commSize = 1 <;> simp [h, Except.toOption]

/-! ### Dispatch-loop bookkeeping -/

/-- The batch indices currently handed to some worker and not yet returned. -/
def pendingOf (ws : List WStatus) : List Nat :=
  ws.filterMap fun st =>
    match st with
    | .computed k => some k
    | _ => none

/-- Workers that have been sent an EXIT message (acknowledged or not). -/
def isDoneStatus (st : WStatus) : Bool :=
  match st with
  | .exiting => true
  | .closed => true
  | _ => false

/-- Workers whose EXIT acknowledgement has been processed. -/
def isClosedStatus (st : WStatus) : Bool :=
  match st with
  | .closed => true
  | _ => false

/-- The write records the coordinator appends when the DONE message of batch
`k` is processed (empty when slicing batch `k` would have failed). -/
def taskRecs (m : SirModel) (interp : Bool) (batches : List (List (Int × Int))) (k : Nat) :
    List ((Nat × Nat) × ChannelRows) × List ((Nat × Nat) × MInterp) :=
  match taskFor m interp batches k with
  | .error _ => ([], [])
  | .ok t =>
    match doneRecs m (workerReply m t) with
    | .error _ => ([], [])
    | .ok recs => recs

/-- Every batch can be fancy-indexed without an `IndexError`. -/
def Sliceable (m : SirModel) (batches : List (List (Int × Int))) : Prop :=
  ∀ k < batches.length, ∃ rp, (batches.getD k []).mapM (resolvePix m) = some rp

theorem workerReply_pix (m : SirModel) (t : Task) : (workerReply m t).pix = t.pix := by
  unfold workerReply
  cases t.interp <;> rfl

/-- The explicit START message for batch `k` once its slicing succeeded. -/
def taskOf (m : SirModel) (interp : Bool) (batches : List (List (Int × Int))) (k : Nat)
    (rp : List (Nat × Nat)) : Task :=
  { index := k, pix := batches.getD k [], interp := interp,
    slices :=
      { sT := sliceQ m m.T rp, sP := sliceQ m m.P rp, sRho := sliceQ m m.rho rp,
        sVz := if m.vzType = "vz" then sliceQ m m.vz rp
          else List.zipWith divProfile (sliceQ m m.vz rp) (sliceQ m m.rho rp),
        sBx := sliceQ m m.Bx rp, sBy := sliceQ m m.By rp,
        sBz := sliceQ m m.Bz rp, sTau := sliceQ m m.tau500 rp,
        sNe := sliceQ m m.ne rp } }

theorem taskFor_ok (m : SirModel) (interp : Bool) (batches : List (List (Int × Int)))
    (k : Nat) (rp : List (Nat × Nat))
    (hrp : (batches.getD k []).mapM (resolvePix m) = some rp) :
    taskFor m interp batches k = Except.ok (taskOf m interp batches k rp) := by
  unfold taskFor taskOf
  simp only [hrp]

theorem doneRecs_ok (m : SirModel) (d : DoneMsg) (rp : List (Nat × Nat))
    (hrp : d.pix.mapM (resolvePix m) = some rp) :
    doneRecs m d = Except.ok
      (List.zipWith (fun p s => (p, rowsOf s)) rp d.stokes,
        match d.modelOut with
        | some ms2 => List.zipWith (fun p mm => (p, mm)) rp ms2
        | none => []) := by
  unfold doneRecs
  simp only [hrp]

theorem handleMsg_ready_dispatch (m : SirModel) (interp : Bool)
    (batches : List (List (Int × Int))) (ms : MasterState)
    (hk : ms.taskIndex < batches.length) (hs : Sliceable m batches) :
    handleMsg m interp batches ms .ready =
      ({ ms with taskIndex := ms.taskIndex + 1, starts := ms.starts ++ [ms.taskIndex] },
        .computed ms.taskIndex) := by
  obtain ⟨rp, hrp⟩ := hs ms.taskIndex hk
  have htf := taskFor_ok m interp batches ms.taskIndex rp hrp
  unfold handleMsg
  simp only [hk, if_true, htf]

theorem handleMsg_ready_exit (m : SirModel) (interp : Bool)
    (batches : List (List (Int × Int))) (ms : MasterState)
    (hk : ¬ ms.taskIndex < batches.length) :
    handleMsg m interp batches ms .ready =
      ({ ms with exitsSent := ms.exitsSent + 1 }, .exiting) := by
  unfold handleMsg
  rw [if_neg hk]

theorem handleMsg_computed (m : SirModel) (interp : Bool)
    (batches : List (List (Int × Int))) (ms : MasterState) (k : Nat)
    (hk : k < batches.length) (hs : Sliceable m batches) :
    ∃ blocks, handleMsg m interp batches ms (.computed k) =
      ({ ms with
         stokesWrites := ms.stokesWrites ++ (taskRecs m interp batches k).1,
         modelWrites := ms.modelWrites ++ (taskRecs m interp batches k).2,
         lastStokes := some blocks }, .ready) := by
  obtain ⟨rp, hrp⟩ := hs k hk
  have htf := taskFor_ok m interp batches k rp hrp
  have hdr := doneRecs_ok m (workerReply m (taskOf m interp batches k rp)) rp
    (by rw [workerReply_pix]; exact hrp)
  have hrecs : taskRecs m interp batches k =
      (List.zipWith (fun p s => (p, rowsOf s)) rp
          (workerReply m (taskOf m interp batches k rp)).stokes,
        match (workerReply m (taskOf m interp batches k rp)).modelOut with
        | some ms2 => List.zipWith (fun p mm => (p, mm)) rp ms2
        | none => []) := by
    unfold taskRecs
    simp only [htf, hdr]
  refine ⟨(workerReply m (taskOf m interp batches k rp)).stokes, ?_⟩
  unfold handleMsg
  simp only [htf, hdr, hrecs]

theorem handleMsg_exiting (m : SirModel) (interp : Bool)
    (batches : List (List (Int × Int))) (ms : MasterState) :
    handleMsg m interp batches ms .exiting =
      ({ ms with closedWorkers := ms.closedWorkers + 1 }, .closed) := rfl

theorem handleMsg_closed (m : SirModel) (interp : Bool)
    (batches : List (List (Int × Int))) (ms : MasterState) :
    handleMsg m interp batches ms .closed = (ms, .closed) := rfl

theorem stepAt_oob (m : SirModel) (interp : Bool) (batches : List (List (Int × Int)))
    (ms : MasterState) :
    ∀ (ws : List WStatus) (w : Nat), ws.length ≤ w →
      stepAt m interp batches ms ws w = (ms, ws) := by
  intro ws
  induction ws with
  | nil => intro w hw; cases w <;> rfl
  | cons st rest ih =>
    intro w hw
    cases w with
    | zero => simp at hw
    | succ w =>
      simp only [stepAt]
      rw [ih w (by simpa using hw)]

theorem stepAt_split (m : SirModel) (interp : Bool) (batches : List (List (Int × Int)))
    (ms : MasterState) :
    ∀ (l : List WStatus) (st : WStatus) (r : List WStatus),
      stepAt m interp batches ms (l ++ st :: r) l.length =
        ((handleMsg m interp batches ms st).1,
          l ++ (handleMsg m interp batches ms st).2 :: r) := by
  intro l
  induction l with
  | nil => intro st r; rfl
  | cons a l ih =>
    intro st r
    simp only [List.cons_append, List.length_cons, stepAt, List.append_eq]
    rw [ih]

theorem exists_split_at {α : Type} (ws : List α) (w : Nat) (hw : w < ws.length) :
    ∃ l st r, ws = l ++ st :: r ∧ l.length = w := by
  refine ⟨ws.take w, ws.get ⟨w, hw⟩, ws.drop (w + 1), ?_, ?_⟩
  · conv_lhs => rw [← List.take_append_drop w ws]
    rw [List.drop_eq_getElem_cons hw]
    rfl
  · rw [List.length_take]
    omega

theorem stepAt_length (m : SirModel) (interp : Bool) (batches : List (List (Int × Int)))
    (ms : MasterState) :
    ∀ (ws : List WStatus) (w : Nat),
      (stepAt m interp batches ms ws w).2.length = ws.length := by
  intro ws
  induction ws with
  | nil => intro w; cases w <;> rfl
  | cons st rest ih =>
    intro w
    cases w with
    | zero => rfl
    | succ w => simp only [stepAt, List.length_cons, ih]

theorem sysStep_length (m : SirModel) (interp : Bool) (batches : List (List (Int × Int)))
    (numW : Nat) (s : MasterState × List WStatus) (w : Nat) :
    (sysStep m interp batches numW s w).2.length = s.2.length := by
  unfold sysStep
  split
  · rfl
  · split
    · rfl
    · exact stepAt_length m interp batches s.1 s.2 w

theorem sysRun_length (m : SirModel) (interp : Bool) (batches : List (List (Int × Int)))
    (numW : Nat) (s : MasterState × List WStatus) (sched : List Nat) :
    (sysRun m interp batches numW s sched).2.length = s.2.length := by
  induction sched generalizing s with
  | nil => rfl
  | cons w sched ih =>
    unfold sysRun at *
    rw [List.foldl_cons, ih, sysStep_length]

theorem pendingOf_append (l r : List WStatus) :
    pendingOf (l ++ r) = pendingOf l ++ pendingOf r :=
  List.filterMap_append l r _

theorem pendingOf_ready (r : List WStatus) :
    pendingOf (.ready :: r) = pendingOf r := rfl

theorem pendingOf_computed (k : Nat) (r : List WStatus) :
    pendingOf (.computed k :: r) = k :: pendingOf r := rfl

theorem pendingOf_exiting (r : List WStatus) :
    pendingOf (.exiting :: r) = pendingOf r := rfl

theorem pendingOf_closed (r : List WStatus) :
    pendingOf (.closed :: r) = pendingOf r := rfl

theorem perm_pull_out {α : Type} (w fl rc fr rhs : List α)
    (h : (w ++ (fl ++ fr)).Perm rhs) :
    (w ++ (fl ++ (rc ++ fr))).Perm (rhs ++ rc) := by
  have hc : (rc ++ fr).Perm (fr ++ rc) := List.perm_append_comm
  have h2 := (hc.append_left fl).append_left w
  have h3 : w ++ (fl ++ (fr ++ rc)) = (w ++ (fl ++ fr)) ++ rc := by
    simp [List.append_assoc]
  rw [h3] at h2
  exact h2.trans (h.append_right rc)

theorem perm_push_in {α : Type} (w fl rc fr rhs : List α)
    (h : (w ++ (fl ++ (rc ++ fr))).Perm rhs) :
    ((w ++ rc) ++ (fl ++ fr)).Perm rhs := by
  have h1 : ((w ++ rc) ++ (fl ++ fr)).Perm (w ++ (fl ++ (rc ++ fr))) := by
    have e0 : (w ++ rc) ++ (fl ++ fr) = w ++ (rc ++ (fl ++ fr)) := by
      simp [List.append_assoc]
    rw [e0]
    apply List.Perm.append_left w
    have h2 : (rc ++ fl).Perm (fl ++ rc) := List.perm_append_comm
    have h3 := h2.append_right fr
    have e1 : (rc ++ fl) ++ fr = rc ++ (fl ++ fr) := by simp [List.append_assoc]
    have e2 : (fl ++ rc) ++ fr = fl ++ (rc ++ fr) := by simp [List.append_assoc]
    rw [e1, e2] at h3
    exact h3
  exact h1.trans h

/-- Invariant of the dispatch loop, relating the coordinator state to the
worker statuses: `starts` is an initial segment of the batch order, every
pending batch was issued, EXIT and acknowledgement counts agree with the
worker statuses, an issued EXIT certifies all batches were dispatched, the
performed writes plus the writes of the in-flight batches are a permutation
of the writes of all issued batches, and the spectral-axis source is present
once something was dispatched and nothing is in flight. -/
structure SysInv (m : SirModel) (interp : Bool) (batches : List (List (Int × Int)))
    (s : MasterState × List WStatus) : Prop where
  taskLe : s.1.taskIndex ≤ batches.length
  startsEq : s.1.starts = List.range s.1.taskIndex
  pendLt : ∀ k ∈ pendingOf s.2, k < s.1.taskIndex
  exitsEq : s.1.exitsSent = (s.2.filter isDoneStatus).length
  closedEq : s.1.closedWorkers = (s.2.filter isClosedStatus).length
  doneAll : (∃ st ∈ s.2, isDoneStatus st = true) → s.1.taskIndex = batches.length
  permS : (s.1.stokesWrites ++
      (pendingOf s.2).flatMap fun k => (taskRecs m interp batches k).1).Perm
    ((List.range s.1.taskIndex).flatMap fun k => (taskRecs m interp batches k).1)
  permM : (s.1.modelWrites ++
      (pendingOf s.2).flatMap fun k => (taskRecs m interp batches k).2).Perm
    ((List.range s.1.taskIndex).flatMap fun k => (taskRecs m interp batches k).2)
  errNone : s.1.err = none
  lastSome : 0 < s.1.taskIndex → pendingOf s.2 = [] → s.1.lastStokes.isSome = true

theorem pendingOf_replicate_ready (n : Nat) :
    pendingOf (List.replicate n WStatus.ready) = [] := by
  induction n with
  | zero => rfl
  | succ n ih => rw [List.replicate_succ, pendingOf_ready, ih]

theorem filter_replicate_ready (p : WStatus → Bool) (n : Nat) (hp : p WStatus.ready = false) :
    (List.replicate n WStatus.ready).filter p = [] := by
  induction n with
  | zero => rfl
  | succ n ih => rw [List.replicate_succ, List.filter_cons, hp]; simpa using ih

theorem sysInv_init (m : SirModel) (interp : Bool) (batches : List (List (Int × Int)))
    (numW : Nat) :
    SysInv m interp batches (initMaster, List.replicate numW WStatus.ready) := by
  constructor
  · exact Nat.zero_le _
  · rfl
  · intro k hk
    rw [pendingOf_replicate_ready] at hk
    cases hk
  · rw [filter_replicate_ready _ _ rfl]; rfl
  · rw [filter_replicate_ready _ _ rfl]; rfl
  · rintro ⟨st, hmem, hdone⟩
    rw [List.eq_of_mem_replicate hmem] at hdone
    cases hdone
  · rw [pendingOf_replicate_ready]; rfl
  · rw [pendingOf_replicate_ready]; rfl
  · rfl
  · intro h _; cases h

theorem sysInv_stepAt (m : SirModel) (interp : Bool) (batches : List (List (Int × Int)))
    (hs : Sliceable m batches) (ms : MasterState) (l : List WStatus) (st : WStatus)
    (r : List WStatus) (hinv : SysInv m interp batches (ms, l ++ st :: r)) :
    SysInv m interp batches
      ((handleMsg m interp batches ms st).1,
        l ++ (handleMsg m interp batches ms st).2 :: r) := by
  obtain ⟨taskLe, startsEq, pendLt, exitsEq, closedEq, doneAll, permS, permM, errNone,
    lastSome⟩ := hinv
  simp only at taskLe startsEq pendLt exitsEq closedEq doneAll permS permM errNone lastSome
  cases st with
  | ready =>
    by_cases hk : ms.taskIndex < batches.length
    · rw [handleMsg_ready_dispatch m interp batches ms hk hs]
      refine ⟨?_, ?_, ?_, ?_, ?_, ?_, ?_, ?_, ?_, ?_⟩ <;> simp only
      · exact hk
      · rw [startsEq, List.range_succ]
      · intro k hk2
        rw [pendingOf_append, pendingOf_computed] at hk2
        rw [pendingOf_append, pendingOf_ready] at pendLt
        rcases List.mem_append.mp hk2 with h | h
        · exact Nat.lt_succ_of_lt (pendLt k (List.mem_append.mpr (Or.inl h)))
        · rcases List.mem_cons.mp h with h2 | h2
          · omega
          · exact Nat.lt_succ_of_lt (pendLt k (List.mem_append.mpr (Or.inr h2)))
      · rw [exitsEq]
        simp [List.filter_append, List.filter_cons, isDoneStatus, List.length_append]
      · rw [closedEq]
        simp [List.filter_append, List.filter_cons, isClosedStatus, List.length_append]
      · rintro ⟨st2, hmem, hdone⟩
        have hold : ∃ st2 ∈ l ++ WStatus.ready :: r, isDoneStatus st2 = true := by
          rcases List.mem_append.mp hmem with h | h
          · exact ⟨st2, List.mem_append.mpr (Or.inl h), hdone⟩
          · rcases List.mem_cons.mp h with h2 | h2
            · subst h2; cases hdone
            · exact ⟨st2, List.mem_append.mpr (Or.inr (List.mem_cons_of_mem _ h2)), hdone⟩
        have := doneAll hold
        omega
      · rw [pendingOf_append, pendingOf_computed, List.flatMap_append, List.flatMap_cons,
          List.range_succ, List.flatMap_append, List.flatMap_cons, List.flatMap_nil,
          List.append_nil]
        apply perm_pull_out
        rw [pendingOf_append, pendingOf_ready, List.flatMap_append] at permS
        exact permS
      · rw [pendingOf_append, pendingOf_computed, List.flatMap_append, List.flatMap_cons,
          List.range_succ, List.flatMap_append, List.flatMap_cons, List.flatMap_nil,
          List.append_nil]
        apply perm_pull_out
        rw [pendingOf_append, pendingOf_ready, List.flatMap_append] at permM
        exact permM
      · exact errNone
      · intro h1 h2
        rw [pendingOf_append, pendingOf_computed] at h2
        exact absurd h2 (by simp)
    · rw [handleMsg_ready_exit m interp batches ms hk]
      refine ⟨?_, ?_, ?_, ?_, ?_, ?_, ?_, ?_, ?_, ?_⟩ <;> simp only
      · exact taskLe
      · exact startsEq
      · intro k hk2
        rw [pendingOf_append, pendingOf_exiting] at hk2
        rw [pendingOf_append, pendingOf_ready] at pendLt
        exact pendLt k hk2
      · rw [exitsEq]
        simp [List.filter_append, List.filter_cons, isDoneStatus, List.length_append]
        omega
      · rw [closedEq]
        simp [List.filter_append, List.filter_cons, isClosedStatus, List.length_append]
      · intro _
        omega
      · rw [pendingOf_append, pendingOf_exiting]
        rw [pendingOf_append, pendingOf_ready] at permS
        exact permS
      · rw [pendingOf_append, pendingOf_exiting]
        rw [pendingOf_append, pendingOf_ready] at permM
        exact permM
      · exact errNone
      · intro h1 h2
        rw [pendingOf_append, pendingOf_exiting] at h2
        rw [pendingOf_append, pendingOf_ready] at lastSome
        exact lastSome h1 h2
  | computed k =>
    have hkt : k < ms.taskIndex := by
      apply pendLt
      rw [pendingOf_append, pendingOf_computed]
      exact List.mem_append.mpr (Or.inr (List.mem_cons_self _ _))
    have hk : k < batches.length := lt_of_lt_of_le hkt taskLe
    obtain ⟨blocks, heq⟩ := handleMsg_computed m interp batches ms k hk hs
    rw [heq]
    refine ⟨?_, ?_, ?_, ?_, ?_, ?_, ?_, ?_, ?_, ?_⟩ <;> simp only
    · exact taskLe
    · exact startsEq
    · intro k2 hk2
      rw [pendingOf_append, pendingOf_ready] at hk2
      apply pendLt
      rw [pendingOf_append, pendingOf_computed]
      rcases List.mem_append.mp hk2 with h | h
      · exact List.mem_append.mpr (Or.inl h)
      · exact List.mem_append.mpr (Or.inr (List.mem_cons_of_mem _ h))
    · rw [exitsEq]
      simp [List.filter_append, List.filter_cons, isDoneStatus, List.length_append]
    · rw [closedEq]
      simp [List.filter_append, List.filter_cons, isClosedStatus, List.length_append]
    · rintro ⟨st2, hmem, hdone⟩
      apply doneAll
      rcases List.mem_append.mp hmem with h | h
      · exact ⟨st2, List.mem_append.mpr (Or.inl h), hdone⟩
      · rcases List.mem_cons.mp h with h2 | h2
        · subst h2; cases hdone
        · exact ⟨st2, List.mem_append.mpr (Or.inr (List.mem_cons_of_mem _ h2)), hdone⟩
    · rw [pendingOf_append, pendingOf_ready, List.flatMap_append]
      rw [pendingOf_append, pendingOf_computed, List.flatMap_append,
        List.flatMap_cons] at permS
      exact perm_push_in _ _ _ _ _ permS
    · rw [pendingOf_append, pendingOf_ready, List.flatMap_append]
      rw [pendingOf_append, pendingOf_computed, List.flatMap_append,
        List.flatMap_cons] at permM
      exact perm_push_in _ _ _ _ _ permM
    · exact errNone
    · intro h1 h2
      rfl
  | exiting =>
    rw [handleMsg_exiting]
    refine ⟨?_, ?_, ?_, ?_, ?_, ?_, ?_, ?_, ?_, ?_⟩ <;> simp only
    · exact taskLe
    · exact startsEq
    · intro k hk2
      rw [pendingOf_append, pendingOf_closed] at hk2
      rw [pendingOf_append, pendingOf_exiting] at pendLt
      exact pendLt k hk2
    · rw [exitsEq]
      simp [List.filter_append, List.filter_cons, isDoneStatus, List.length_append]
    · rw [closedEq]
      simp [List.filter_append, List.filter_cons, isClosedStatus, List.length_append]
      omega
    · intro _
      apply doneAll
      exact ⟨WStatus.exiting, List.mem_append.mpr (Or.inr (List.mem_cons_self _ _)), rfl⟩
    · rw [pendingOf_append, pendingOf_closed]
      rw [pendingOf_append, pendingOf_exiting] at permS
      exact permS
    · rw [pendingOf_append, pendingOf_closed]
      rw [pendingOf_append, pendingOf_exiting] at permM
      exact permM
    · exact errNone
    · intro h1 h2
      rw [pendingOf_append, pendingOf_closed] at h2
      rw [pendingOf_append, pendingOf_exiting] at lastSome
      exact lastSome h1 h2
  | closed =>
    rw [handleMsg_closed]
    exact ⟨taskLe, startsEq, pendLt, exitsEq, closedEq, doneAll, permS, permM, errNone,
      lastSome⟩

theorem sysInv_sysStep (m : SirModel) (interp : Bool) (batches : List (List (Int × Int)))
    (numW : Nat) (hs : Sliceable m batches) (s : MasterState × List WStatus) (w : Nat)
    (hinv : SysInv m interp batches s) :
    SysInv m interp batches (sysStep m interp batches numW s w) := by
  obtain ⟨ms, ws⟩ := s
  unfold sysStep
  rw [hinv.errNone]
  simp only [Option.isSome_none, Bool.false_eq_true, if_false]
  split
  · exact hinv
  · by_cases hw : w < ws.length
    · obtain ⟨l, st, r, hws, hl⟩ := exists_split_at ws w hw
      subst hws
      rw [← hl, stepAt_split]
      exact sysInv_stepAt m interp batches hs ms l st r hinv
    · rw [stepAt_oob m interp batches ms ws w (by omega)]
      exact hinv

theorem sysInv_sysRun (m : SirModel) (interp : Bool) (batches : List (List (Int × Int)))
    (numW : Nat) (hs : Sliceable m batches) (s : MasterState × List WStatus)
    (sched : List Nat) (hinv : SysInv m interp batches s) :
    SysInv m interp batches (sysRun m interp batches numW s sched) := by
  induction sched generalizing s with
  | nil => exact hinv
  | cons w sched ih =>
    unfold sysRun at *
    rw [List.foldl_cons]
    exact ih _ (sysInv_sysStep m interp batches numW hs s w hinv)

theorem all_of_filter_length {α : Type} (p : α → Bool) (l : List α)
    (h : (l.filter p).length = l.length) : ∀ a ∈ l, p a = true := by
  induction l with
  | nil => intro a ha; cases ha
  | cons x l ih =>
    rw [List.filter_cons] at h
    by_cases hx : p x = true
    · intro a ha
      rcases List.mem_cons.mp ha with rfl | ha2
      · exact hx
      · refine ih ?_ a ha2
        rw [hx] at h
        simpa using h
    · exfalso
      have hle := List.length_filter_le p l
      simp only [Bool.not_eq_true] at hx
      rw [hx] at h
      simp only [if_false, List.length_cons] at h
      simp at h
      omega

theorem pendingOf_nil_of_all_closed (ws : List WStatus)
    (h : ∀ st ∈ ws, isClosedStatus st = true) : pendingOf ws = [] := by
  induction ws with
  | nil => rfl
  | cons st rest ih =>
    have hst := h st (List.mem_cons_self _ _)
    cases st with
    | closed =>
      rw [pendingOf_closed]
      exact ih fun st2 h2 => h st2 (List.mem_cons_of_mem _ h2)
    | ready => cases hst
    | computed k => cases hst
    | exiting => cases hst

theorem sysStep_zeroW (m : SirModel) (interp : Bool) (batches : List (List (Int × Int)))
    (s : MasterState × List WStatus) (w : Nat) :
    sysStep m interp batches 0 s w = s := by
  unfold sysStep
  split
  · rfl
  · rw [if_pos (Nat.zero_le _)]

theorem sysRun_zeroW (m : SirModel) (interp : Bool) (batches : List (List (Int × Int)))
    (s : MasterState × List WStatus) (sched : List Nat) :
    sysRun m interp batches 0 s sched = s := by
  induction sched generalizing s with
  | nil => rfl
  | cons w sched ih =>
    unfold sysRun at *
    rw [List.foldl_cons, sysStep_zeroW, ih]

theorem sysRun_complete (m : SirModel) (interp : Bool) (batches : List (List (Int × Int)))
    (numW : Nat) (sched : List Nat) (hs : Sliceable m batches)
    (hW : 0 < numW) (hB : 0 < batches.length)
    (hdone : (sysRun m interp batches numW
      (initMaster, List.replicate numW WStatus.ready) sched).1.closedWorkers = numW) :
    (sysRun m interp batches numW
        (initMaster, List.replicate numW WStatus.ready) sched).1.taskIndex =
        batches.length ∧
      (sysRun m interp batches numW
        (initMaster, List.replicate numW WStatus.ready) sched).1.starts =
        List.range batches.length ∧
      (sysRun m interp batches numW
        (initMaster, List.replicate numW WStatus.ready) sched).1.exitsSent = numW ∧
      (sysRun m interp batches numW
        (initMaster, List.replicate numW WStatus.ready) sched).1.err = none ∧
      (sysRun m interp batches numW
        (initMaster, List.replicate numW WStatus.ready) sched).1.lastStokes.isSome = true ∧
      ((sysRun m interp batches numW
        (initMaster, List.replicate numW WStatus.ready) sched).1.stokesWrites).Perm
        ((List.range batches.length).flatMap fun k => (taskRecs m interp batches k).1) ∧
      ((sysRun m interp batches numW
        (initMaster, List.replicate numW WStatus.ready) sched).1.modelWrites).Perm
        ((List.range batches.length).flatMap fun k => (taskRecs m interp batches k).2) := by
  have hinv := sysInv_sysRun m interp batches numW hs
    (initMaster, List.replicate numW WStatus.ready) sched
    (sysInv_init m interp batches numW)
  set fin := sysRun m interp batches numW
    (initMaster, List.replicate numW WStatus.ready) sched with hfin
  have hlen : fin.2.length = numW := by
    rw [hfin, sysRun_length, List.length_replicate]
  have hallc : ∀ st ∈ fin.2, isClosedStatus st = true := by
    apply all_of_filter_length
    have h1 := hinv.closedEq
    omega
  have hpend : pendingOf fin.2 = [] := pendingOf_nil_of_all_closed _ hallc
  have hex : ∃ st ∈ fin.2, isDoneStatus st = true := by
    cases h2 : fin.2 with
    | nil =>
      rw [h2] at hlen
      simp at hlen
      omega
    | cons st rest =>
      refine ⟨st, List.mem_cons_self _ _, ?_⟩
      have hc := hallc st (by rw [h2]; exact List.mem_cons_self _ _)
      cases st with
      | closed => rfl
      | ready => cases hc
      | computed k => cases hc
      | exiting => cases hc
  have htask : fin.1.taskIndex = batches.length := hinv.doneAll hex
  have hfd : fin.2.filter isDoneStatus = fin.2 := by
    rw [List.filter_eq_self]
    intro st hmem
    have hc := hallc st hmem
    cases st with
    | closed => rfl
    | ready => cases hc
    | computed k => cases hc
    | exiting => cases hc
  refine ⟨htask, ?_, ?_, hinv.errNone, ?_, ?_, ?_⟩
  · rw [hinv.startsEq, htask]
  · rw [hinv.exitsEq, hfd, hlen]
  · exact hinv.lastSome (by omega) hpend
  · have h := hinv.permS
    rw [hpend, htask] at h
    simpa using h
  · have h := hinv.permM
    rw [hpend, htask] at h
    simpa using h

/-- Full characterization of a distributed run that is not hung and raised no
exception: every batch was issued exactly once, in partition order; each
worker got exactly one EXIT; the store was closed; and the write lists are a
permutation of the per-batch write records in batch order. -/
theorem mpi_master_work_complete (m : SirModel) (batch : Nat)
    (rangex rangey : Option (Int × Int)) (numW : Nat) (sched : List Nat)
    (bs : List (List (Int × Int)))
    (hok : partitionPixels m batch rangex rangey = Except.ok bs)
    (hs : Sliceable m bs)
    (herr : (mpi_master_work m batch rangex rangey numW sched).err = none)
    (hhung : (mpi_master_work m batch rangex rangey numW sched).hung = false) :
    (mpi_master_work m batch rangex rangey numW sched).created = true ∧
      (mpi_master_work m batch rangex rangey numW sched).modelDbShape =
        (if m.interpolatedModelFilename.isSome then some [7, m.ny, m.nx, m.nTau]
          else none) ∧
      (mpi_master_work m batch rangex rangey numW sched).starts = List.range bs.length ∧
      (mpi_master_work m batch rangex rangey numW sched).exitsSent = numW ∧
      (mpi_master_work m batch rangex rangey numW sched).closedWorkers = numW ∧
      (mpi_master_work m batch rangex rangey numW sched).storeClosed = true ∧
      (mpi_master_work m batch rangex rangey numW sched).modelClosed =
        m.interpolatedModelFilename.isSome ∧
      ((mpi_master_work m batch rangex rangey numW sched).stokesWrites).Perm
        ((List.range bs.length).flatMap fun k =>
          (taskRecs m m.interpolatedModelFilename.isSome bs k).1) ∧
      ((mpi_master_work m batch rangex rangey numW sched).modelWrites).Perm
        ((List.range bs.length).flatMap fun k =>
          (taskRecs m m.interpolatedModelFilename.isSome bs k).2) := by
  have hB : 0 < bs.length := by
    rw [partition_length hok]
    exact (partition_ok_elim hok).2.1
  rcases Nat.eq_zero_or_pos numW with h0 | hWpos
  · exfalso
    subst h0
    unfold mpi_master_work at herr
    simp only [hok] at herr
    rw [sysRun_zeroW] at herr
    simp [initMaster] at herr
  · by_cases hcw : (sysRun m m.interpolatedModelFilename.isSome bs numW
        (initMaster, List.replicate numW WStatus.ready) sched).1.closedWorkers < numW
    · exfalso
      have hinv := sysInv_sysRun m m.interpolatedModelFilename.isSome bs numW hs
        (initMaster, List.replicate numW WStatus.ready) sched
        (sysInv_init m m.interpolatedModelFilename.isSome bs numW)
      unfold mpi_master_work at hhung
      simp only [hok] at hhung
      rw [hinv.errNone] at hhung
      simp only [if_pos hcw] at hhung
      cases hhung
    · have hle : (sysRun m m.interpolatedModelFilename.isSome bs numW
          (initMaster, List.replicate numW WStatus.ready) sched).1.closedWorkers ≤ numW := by
        have hinv := sysInv_sysRun m m.interpolatedModelFilename.isSome bs numW hs
          (initMaster, List.replicate numW WStatus.ready) sched
          (sysInv_init m m.interpolatedModelFilename.isSome bs numW)
        have h1 := hinv.closedEq
        have h2 := List.length_filter_le isClosedStatus
          (sysRun m m.interpolatedModelFilename.isSome bs numW
            (initMaster, List.replicate numW WStatus.ready) sched).2
        have h3 : (sysRun m m.interpolatedModelFilename.isSome bs numW
            (initMaster, List.replicate numW WStatus.ready) sched).2.length = numW := by
          rw [sysRun_length, List.length_replicate]
        omega
      have hdone : (sysRun m m.interpolatedModelFilename.isSome bs numW
          (initMaster, List.replicate numW WStatus.ready) sched).1.closedWorkers = numW := by
        omega
      obtain ⟨htask, hstarts, hexits, herr2, hlast, hpermS, hpermM⟩ :=
        sysRun_complete m m.interpolatedModelFilename.isSome bs numW sched hs hWpos hB hdone
      obtain ⟨blocks, hblocks⟩ := Option.isSome_iff_exists.mp hlast
      unfold mpi_master_work
      simp only [hok]
      rw [herr2]
      simp only [if_neg hcw]
      rw [hblocks]
      exact ⟨rfl, rfl, hstarts, hexits, hdone, rfl, rfl, hpermS, hpermM⟩

/-- Both requested coordinate ranges lie inside the grid proper (no negative
wrap-around, no upper overflow). -/
def ValidRanges (m : SirModel) (rangex rangey : Option (Int × Int)) : Prop :=
  (∀ i ∈ requestedX m rangex, 0 ≤ i ∧ i < (m.nx : Int)) ∧
    (∀ j ∈ requestedY m rangey, 0 ≤ j ∧ j < (m.ny : Int))

/-- The storage location of an in-range requested coordinate pair. -/
def storageOf (p : Int × Int) : Nat × Nat := (p.2.toNat, p.1.toNat)

theorem resolvePix_of_valid (m : SirModel) (p : Int × Int)
    (hx : 0 ≤ p.1 ∧ p.1 < (m.nx : Int)) (hy : 0 ≤ p.2 ∧ p.2 < (m.ny : Int)) :
    resolvePix m p = some (storageOf p) := by
  unfold resolvePix npIndex storageOf
  rw [if_pos hx, if_pos hy]
  rfl

theorem mapM_resolve_all (m : SirModel) (l : List (Int × Int))
    (h : ∀ p ∈ l, resolvePix m p = some (storageOf p)) :
    l.mapM (resolvePix m) = some (l.map storageOf) := by
  induction l with
  | nil => rfl
  | cons p l ih =>
    rw [List.mapM_cons, h p (List.mem_cons_self _ _),
      ih fun q hq => h q (List.mem_cons_of_mem _ hq)]
    rfl

theorem mem_meshPixels {x y : List Int} {p : Int × Int} (h : p ∈ meshPixels x y) :
    p.1 ∈ x ∧ p.2 ∈ y := by
  unfold meshPixels at h
  simp only [List.mem_flatMap, List.mem_map] at h
  obtain ⟨yj, hy, xi, hx, rfl⟩ := h
  exact ⟨hx, hy⟩

theorem batch_subset_requested {m : SirModel} {batch : Nat}
    {rangex rangey : Option (Int × Int)} {bs : List (List (Int × Int))}
    (hok : partitionPixels m batch rangex rangey = Except.ok bs)
    {piece : List (Int × Int)} (hmem : piece ∈ bs) {p : Int × Int} (hp : p ∈ piece) :
    p ∈ requestedPixels m rangex rangey := by
  rw [← partition_flatten hok]
  exact List.mem_flatten.mpr ⟨piece, hmem, hp⟩

theorem resolve_requested_of_valid {m : SirModel} {rangex rangey : Option (Int × Int)}
    (hv : ValidRanges m rangex rangey) {p : Int × Int}
    (hp : p ∈ requestedPixels m rangex rangey) :
    resolvePix m p = some (storageOf p) := by
  obtain ⟨hx, hy⟩ := mem_meshPixels hp
  exact resolvePix_of_valid m p (hv.1 p.1 hx) (hv.2 p.2 hy)

theorem sliceable_of_valid {m : SirModel} {batch : Nat}
    {rangex rangey : Option (Int × Int)} {bs : List (List (Int × Int))}
    (hok : partitionPixels m batch rangex rangey = Except.ok bs)
    (hv : ValidRanges m rangex rangey) : Sliceable m bs := by
  intro k hk
  refine ⟨(bs.getD k []).map storageOf, ?_⟩
  apply mapM_resolve_all
  intro p hp
  have hmem : bs.getD k [] ∈ bs := by
    rw [List.getD_eq_getElem?_getD]
    rw [List.getElem?_eq_getElem hk]
    exact List.getElem_mem hk
  exact resolve_requested_of_valid hv (batch_subset_requested hok hmem hp)

/-- A decidable reformulation of `Sliceable`, for concrete instances. -/
theorem sliceable_iff (m : SirModel) (batches : List (List (Int × Int))) :
    Sliceable m batches ↔
      ∀ b ∈ batches, (b.mapM (resolvePix m)).isSome = true := by
  constructor
  · intro hs b hb
    obtain ⟨k, hk, hkb⟩ := List.getElem_of_mem hb
    obtain ⟨rp, hrp⟩ := hs k hk
    rw [List.getD_eq_getElem?_getD, List.getElem?_eq_getElem hk] at hrp
    simp only [Option.getD_some] at hrp
    rw [hkb] at hrp
    rw [hrp]
    rfl
  · intro h k hk
    have hmem : batches.getD k [] ∈ batches := by
      rw [List.getD_eq_getElem?_getD, List.getElem?_eq_getElem hk]
      exact List.getElem_mem hk
    have := h _ hmem
    cases hr : (batches.getD k []).mapM (resolvePix m) with
    | none => rw [hr] at this; cases this
    | some rp => exact ⟨rp, rfl⟩

/-! ### C6 - dispatch counts and termination -/

/-- C6: a completed distributed run with `W` workers and `B` batches issued
exactly the `B` START messages, one per batch, in partition order; exactly
`W` EXIT messages, one per worker; the loop terminated with the
closed-worker counter equal to `W`; and only then was the output store
closed. -/
theorem claim_C6_dispatch_counts (m : SirModel) (batch : Nat)
    (rangex rangey : Option (Int × Int)) (numW : Nat) (sched : List Nat)
    (bs : List (List (Int × Int)))
    (hok : partitionPixels m batch rangex rangey = Except.ok bs)
    (hv : ValidRanges m rangex rangey)
    (herr : (mpi_master_work m batch rangex rangey numW sched).err = none)
    (hhung : (mpi_master_work m batch rangex rangey numW sched).hung = false) :
    (mpi_master_work m batch rangex rangey numW sched).starts = List.range bs.length ∧
      (mpi_master_work m batch rangex rangey numW sched).exitsSent = numW ∧
      (mpi_master_work m batch rangex rangey numW sched).closedWorkers = numW ∧
      (mpi_master_work m batch rangex rangey numW sched).storeClosed = true := by
  obtain ⟨-, -, h1, h2, h3, h4, -, -, -⟩ :=
    mpi_master_work_complete m batch rangex rangey numW sched bs hok
      (sliceable_of_valid hok hv) herr hhung
  exact ⟨h1, h2, h3, h4⟩

/-- The seven singleton batches of a 7x1 grid with batch size 1. -/
def bs7C6 : List (List (Int × Int)) :=
  [[(0, 0)], [(1, 0)], [(2, 0)], [(3, 0)], [(4, 0)], [(5, 0)], [(6, 0)]]

/-- An arrival schedule under which worker 0 performs all seven batches and
then all three workers drain: 7 STARTs, 3 EXITs. -/
def sched7C6 : List Nat :=
  [0, 0, 0, 0, 0, 0, 0, 0, 0, 0, 0, 0, 0, 0, 0, 0, 1, 1, 2, 2]

theorem claim_C6_witness :
    (mpi_master_work (testModel 7 1 "vz" none) 1 none none 3 sched7C6).starts =
        List.range 7 ∧
      (mpi_master_work (testModel 7 1 "vz" none) 1 none none 3 sched7C6).exitsSent = 3 ∧
      (mpi_master_work (testModel 7 1 "vz" none) 1 none none 3 sched7C6).closedWorkers = 3 ∧
      (mpi_master_work (testModel 7 1 "vz" none) 1 none none 3 sched7C6).storeClosed = true := by
  have h := claim_C6_dispatch_counts (testModel 7 1 "vz" none) 1 none none 3 sched7C6
    bs7C6 (by rfl)
    (by constructor <;> (intro i hi; rcases mem_arange hi with ⟨h1, h2⟩; constructor <;> omega))
    (by rfl) (by rfl)
  simpa using h

/-! ### C2 - every requested pixel written exactly once -/

theorem count_one_of_nodup_mem {α : Type} [BEq α] [LawfulBEq α] {l : List α} {a : α}
    (hn : l.Nodup) (ha : a ∈ l) : l.count a = 1 := by
  induction l with
  | nil => cases ha
  | cons x l ih =>
    rw [List.count_cons]
    rcases List.mem_cons.mp ha with rfl | hmem
    · rw [List.count_eq_zero.mpr (List.nodup_cons.mp hn).1]
      simp
    · have hne : a ≠ x := by
        rintro rfl
        exact (List.nodup_cons.mp hn).1 hmem
      rw [ih (List.nodup_cons.mp hn).2 hmem]
      simp [hne]
      exact fun h => hne h.symm

theorem perm_count_eq {α : Type} [BEq α] {l₁ l₂ : List α} (h : l₁.Perm l₂) (a : α) :
    l₁.count a = l₂.count a := by
  induction h with
  | nil => rfl
  | cons x h ih => rw [List.count_cons, List.count_cons, ih]
  | swap x y l => rw [List.count_cons, List.count_cons, List.count_cons, List.count_cons]; omega
  | trans h1 h2 ih1 ih2 => rw [ih1, ih2]

theorem map_fst_graph {α β : Type} (f : α → β) (l : List α) :
    (l.map fun p => (p, f p)).map Prod.fst = l := by
  induction l with
  | nil => rfl
  | cons a l ih => simp only [List.map_cons]; rw [ih]

theorem nonmpi_work_stokesWrites (m : SirModel) (rangex rangey : Option (Int × Int)) :
    (nonmpi_work m rangex rangey).stokesWrites =
      (serialGrid m).map fun p =>
        (p, rowsOf (serialSynthAt m m.interpolatedModelFilename.isSome p.1 p.2).1) := by
  unfold nonmpi_work
  simp only
  split
  · rw [List.map_map]
    exact List.map_congr_left fun p _ => rfl
  · split <;>
      (rw [List.map_map]
       exact List.map_congr_left fun p _ => rfl)

theorem mem_serialGrid {m : SirModel} {q : Nat × Nat} :
    q ∈ serialGrid m ↔ q.1 < m.ny ∧ q.2 < m.nx := by
  obtain ⟨iy, ix⟩ := q
  unfold serialGrid
  simp only [List.mem_flatMap, List.mem_map, List.mem_range, Prod.mk.injEq]
  constructor
  · rintro ⟨a, ha, b, hb, h1, h2⟩
    omega
  · rintro ⟨h1, h2⟩
    exact ⟨iy, h1, ix, h2, rfl, rfl⟩

theorem map_fst_zipWith_pair {α β γ : Type} (g : β → γ) :
    ∀ (rp : List α) (blocks : List β), blocks.length = rp.length →
      (List.zipWith (fun p s => (p, g s)) rp blocks).map Prod.fst = rp := by
  intro rp
  induction rp with
  | nil => intro blocks h; rfl
  | cons p rp ih =>
    intro blocks h
    cases blocks with
    | nil => simp at h
    | cons b blocks =>
      simp only [List.zipWith_cons_cons, List.map_cons]
      rw [ih blocks (by simpa using h)]

theorem sliceQ_length (m : SirModel) (q : Nat → Nat → Nat → ℚ) (rp : List (Nat × Nat)) :
    (sliceQ m q rp).length = rp.length := by
  unfold sliceQ
  rw [List.length_map]

theorem workerReply_stokes_length (m : SirModel) (t : Task)
    (hwf : ∀ ts ps rs vs b1s b2s b3s tas nes flag,
      ((m.synth2d ts ps rs vs b1s b2s b3s tas nes flag).1).length = ts.length) :
    (workerReply m t).stokes.length = t.slices.sT.length := by
  unfold workerReply
  cases t.interp <;> simp [hwf]

/-- Under valid ranges and a well-formed batched entry point, the stokes
write keys for batch `k` are exactly its storage locations. -/
theorem taskRecs_fst_keys (m : SirModel) (interp : Bool) {batch : Nat}
    {rangex rangey : Option (Int × Int)} {bs : List (List (Int × Int))}
    (hok : partitionPixels m batch rangex rangey = Except.ok bs)
    (hv : ValidRanges m rangex rangey)
    (hwf : ∀ ts ps rs vs b1s b2s b3s tas nes flag,
      ((m.synth2d ts ps rs vs b1s b2s b3s tas nes flag).1).length = ts.length)
    (k : Nat) (hk : k < bs.length) :
    ((taskRecs m interp bs k).1).map Prod.fst = (bs.getD k []).map storageOf := by
  have hmem : bs.getD k [] ∈ bs := by
    rw [List.getD_eq_getElem?_getD, List.getElem?_eq_getElem hk]
    exact List.getElem_mem hk
  have hrp : (bs.getD k []).mapM (resolvePix m) =
      some ((bs.getD k []).map storageOf) := by
    apply mapM_resolve_all
    intro p hp
    exact resolve_requested_of_valid hv (batch_subset_requested hok hmem hp)
  have htf := taskFor_ok m interp bs k _ hrp
  have hdr := doneRecs_ok m (workerReply m (taskOf m interp bs k ((bs.getD k []).map storageOf)))
    ((bs.getD k []).map storageOf) (by rw [workerReply_pix]; exact hrp)
  simp only [taskRecs, htf, hdr]
  apply map_fst_zipWith_pair
  rw [workerReply_stokes_length m _ hwf]
  unfold taskOf
  rw [sliceQ_length, List.length_map]

theorem flatMap_range_getD {α β : Type} (d : α) (f : α → List β) :
    ∀ (l : List α),
      (List.range l.length).flatMap (fun k => f (l.getD k d)) = (l.map f).flatten := by
  intro l
  induction l with
  | nil => rfl
  | cons a l ih =>
    rw [List.length_cons, List.range_succ_eq_map, List.flatMap_cons, List.map_cons,
      List.flatten_cons, ← ih]
    congr 1
    rw [List.flatMap_map]
    rfl

/-- In a completed valid distributed run, the multiset of stokes write keys
is exactly the storage location of each requested pixel, once. -/
theorem mpi_master_work_keys (m : SirModel) (batch : Nat)
    (rangex rangey : Option (Int × Int)) (numW : Nat) (sched : List Nat)
    (bs : List (List (Int × Int)))
    (hok : partitionPixels m batch rangex rangey = Except.ok bs)
    (hv : ValidRanges m rangex rangey)
    (hwf : ∀ ts ps rs vs b1s b2s b3s tas nes flag,
      ((m.synth2d ts ps rs vs b1s b2s b3s tas nes flag).1).length = ts.length)
    (herr : (mpi_master_work m batch rangex rangey numW sched).err = none)
    (hhung : (mpi_master_work m batch rangex rangey numW sched).hung = false) :
    ((mpi_master_work m batch rangex rangey numW sched).stokesWrites.map Prod.fst).Perm
      ((requestedPixels m rangex rangey).map storageOf) := by
  obtain ⟨-, -, -, -, -, -, -, hpermS, -⟩ :=
    mpi_master_work_complete m batch rangex rangey numW sched bs hok
      (sliceable_of_valid hok hv) herr hhung
  have hkeys := hpermS.map Prod.fst
  rw [List.map_flatMap] at hkeys
  have hcongr : ∀ k ∈ List.range bs.length,
      ((taskRecs m m.interpolatedModelFilename.isSome bs k).1).map Prod.fst =
        (fun b => b.map storageOf) (bs.getD k []) := by
    intro k hk
    exact taskRecs_fst_keys m _ hok hv hwf k (List.mem_range.mp hk)
  rw [List.flatMap_congr hcongr] at hkeys
  rw [flatMap_range_getD] at hkeys
  rw [← List.map_flatten, partition_flatten hok] at hkeys
  exact hkeys

theorem storageOf_inj_on_valid {m : SirModel} {rangex rangey : Option (Int × Int)}
    (hv : ValidRanges m rangex rangey) :
    ∀ p ∈ requestedPixels m rangex rangey, ∀ q ∈ requestedPixels m rangex rangey,
      storageOf p = storageOf q → p = q := by
  intro p hp q hq h
  obtain ⟨hpx, hpy⟩ := mem_meshPixels hp
  obtain ⟨hqx, hqy⟩ := mem_meshPixels hq
  have h1 := hv.1 p.1 hpx
  have h2 := hv.2 p.2 hpy
  have h3 := hv.1 q.1 hqx
  have h4 := hv.2 q.2 hqy
  unfold storageOf at h
  rw [Prod.mk.injEq] at h
  rw [Prod.ext_iff]
  omega

/-- C2: in every completed valid run - serial or distributed - each pixel of
the requested range is written exactly once to the (jointly written) four
channel datasets: exactly one write record carries its storage key, and in
the distributed case the store is closed after the writes. -/
theorem claim_C2_exactly_once (m : SirModel) (batch : Nat)
    (rangex rangey : Option (Int × Int)) (numW : Nat) (sched : List Nat)
    (bs : List (List (Int × Int)))
    (hv : ValidRanges m rangex rangey)
    (hwf : ∀ ts ps rs vs b1s b2s b3s tas nes flag,
      ((m.synth2d ts ps rs vs b1s b2s b3s tas nes flag).1).length = ts.length)
    (hok : partitionPixels m batch rangex rangey = Except.ok bs)
    (herr : (mpi_master_work m batch rangex rangey numW sched).err = none)
    (hhung : (mpi_master_work m batch rangex rangey numW sched).hung = false) :
    ∀ p ∈ requestedPixels m rangex rangey,
      ((nonmpi_work m rangex rangey).stokesWrites.map Prod.fst).count (storageOf p) = 1 ∧
        ((mpi_master_work m batch rangex rangey numW sched).stokesWrites.map
          Prod.fst).count (storageOf p) = 1 ∧
        (mpi_master_work m batch rangex rangey numW sched).storeClosed = true := by
  intro p hp
  obtain ⟨hpx, hpy⟩ := mem_meshPixels hp
  have hx := hv.1 p.1 hpx
  have hy := hv.2 p.2 hpy
  refine ⟨?_, ?_, ?_⟩
  · rw [nonmpi_work_stokesWrites, map_fst_graph]
    apply count_one_of_nodup_mem (serialGrid_nodup m)
    rw [mem_serialGrid]
    unfold storageOf
    constructor <;> omega
  · have hkeys := mpi_master_work_keys m batch rangex rangey numW sched bs hok hv hwf herr hhung
    rw [perm_count_eq hkeys]
    apply count_one_of_nodup_mem
    · apply List.Nodup.map_on (storageOf_inj_on_valid hv)
      exact requestedPixels_nodup m rangex rangey
    · exact List.mem_map_of_mem _ hp
  · exact (mpi_master_work_complete m batch rangex rangey numW sched bs hok
      (sliceable_of_valid hok hv) herr hhung).2.2.2.2.2.1

theorem claim_C2_witness :
    ((nonmpi_work (testModel 2 2 "vz" none) none none).stokesWrites.map
      Prod.fst).count (1, 1) = 1 ∧
      (((mpi_master_work (testModel 2 2 "vz" none) 2 none none 1
        [0, 0, 0, 0, 0, 0]).stokesWrites.map Prod.fst).count (1, 1) = 1 ∧
      (mpi_master_work (testModel 2 2 "vz" none) 2 none none 1
        [0, 0, 0, 0, 0, 0]).storeClosed = true) := by
  have h := claim_C2_exactly_once (testModel 2 2 "vz" none) 2 none none 1
    [0, 0, 0, 0, 0, 0] [[(0, 0), (1, 0)], [(0, 1), (1, 1)]]
    (by constructor <;> (intro i hi; rcases mem_arange hi with ⟨h1, h2⟩; constructor <;> omega))
    (by intro ts ps rs vs b1s b2s b3s tas nes flag; simp [testModel])
    (by rfl) (by rfl) (by rfl)
    ((1 : Int), (1 : Int)) (by decide)
  simpa [storageOf] using h

/-! ### C7 - resampled-model dataset shapes -/

/-- C7 counterexample: with `ny = 2`, `nx = 3`, `n_tau = 5` and interpolation
requested, the serial path creates the resampled-model dataset with shape
`(ny, nx, 7, n_tau)` while the distributed path creates it with shape
`(7, ny, nx, n_tau)` - the two layouts differ. -/
theorem claim_C7_counterexample :
    (nonmpi_work (testModel 3 2 "vz" (some "tau.h5")) none none).modelDbShape =
        some [2, 3, 7, 5] ∧
      (mpi_master_work (testModel 3 2 "vz" (some "tau.h5")) 1 none none 1 []).modelDbShape =
        some [7, 2, 3, 5] ∧
      (some [2, 3, 7, 5] : Option (List Nat)) ≠ some [7, 2, 3, 5] := by
  refine ⟨rfl, rfl, by decide⟩

/-- C7 (amended): the resampled-model dataset is present if and only if
interpolation was requested, in both paths; but the serial path creates it as
`(ny, nx, 7, n_tau)` while the distributed path creates it as
`(7, ny, nx, n_tau)` - a layout inconsistency between the two paths. -/
theorem claim_C7_model_dataset_shapes (m : SirModel) (batch : Nat)
    (rangex rangey : Option (Int × Int)) (numW : Nat) (sched : List Nat)
    (bs : List (List (Int × Int)))
    (hok : partitionPixels m batch rangex rangey = Except.ok bs) :
    (nonmpi_work m rangex rangey).modelDbShape =
        (if m.interpolatedModelFilename.isSome then some [m.ny, m.nx, 7, m.nTau]
          else none) ∧
      (mpi_master_work m batch rangex rangey numW sched).modelDbShape =
        (if m.interpolatedModelFilename.isSome then some [7, m.ny, m.nx, m.nTau]
          else none) := by
  constructor
  · unfold nonmpi_work
    simp only
    split
    · rfl
    · split <;> rfl
  · unfold mpi_master_work
    simp only [hok]
    split
    · rfl
    · split
      · rfl
      · split <;> rfl

theorem claim_C7_witness :
    (nonmpi_work (testModel 3 2 "vz" (some "tau.h5")) none none).modelDbShape =
        (if (testModel 3 2 "vz" (some "tau.h5")).interpolatedModelFilename.isSome
          then some [2, 3, 7, 5] else none) ∧
      (mpi_master_work (testModel 3 2 "vz" (some "tau.h5")) 1 none none 1 []).modelDbShape =
        (if (testModel 3 2 "vz" (some "tau.h5")).interpolatedModelFilename.isSome
          then some [7, 2, 3, 5] else none) := by
  exact claim_C7_model_dataset_shapes (testModel 3 2 "vz" (some "tau.h5")) 1 none none 1 []
    [[(0, 0)], [(1, 0)], [(2, 0)], [(0, 1)], [(1, 1)], [(2, 1)]] (by rfl)

/-! ### C9 - the serial path crashes at the end without interpolation -/

theorem nonmpi_work_keys (m : SirModel) (rangex rangey : Option (Int × Int)) :
    (nonmpi_work m rangex rangey).stokesWrites.map Prod.fst = serialGrid m := by
  rw [nonmpi_work_stokesWrites, map_fst_graph]

/-- C9: whenever no interpolated model is requested, a serial run over a
nonempty grid computes and writes every pixel, closes the spectra file, and
then raises `AttributeError` on the unconditional `self.f_model_out.close()`
(the handle exists only when interpolation was requested); in particular the
serial path completes without error only when interpolation is requested. -/
theorem claim_C9_serial_close_bug (m : SirModel) (rangex rangey : Option (Int × Int))
    (hx : 0 < m.nx) (hy : 0 < m.ny) :
    (m.interpolatedModelFilename = none →
      (nonmpi_work m rangex rangey).err = some "AttributeError" ∧
        (nonmpi_work m rangex rangey).stokesClosed = true ∧
        (nonmpi_work m rangex rangey).stokesWrites.map Prod.fst = serialGrid m) ∧
      ((nonmpi_work m rangex rangey).err = none →
        m.interpolatedModelFilename.isSome = true) := by
  have hne : serialGrid m ≠ [] := by
    intro h
    have hmem : ((0 : Nat), (0 : Nat)) ∈ serialGrid m := mem_serialGrid.mpr ⟨hy, hx⟩
    rw [h] at hmem
    cases hmem
  have hmain : m.interpolatedModelFilename = none →
      (nonmpi_work m rangex rangey).err = some "AttributeError" ∧
        (nonmpi_work m rangex rangey).stokesClosed = true := by
    intro hnone
    unfold nonmpi_work
    rw [hnone]
    simp only [Option.isSome_none, Bool.false_eq_true, if_false]
    split
    · exfalso
      rename_i heq
      rw [List.getLast?_eq_none_iff, List.map_eq_nil_iff, List.map_eq_nil_iff] at heq
      exact hne heq
    · exact ⟨rfl, rfl⟩
  refine ⟨fun hnone => ⟨(hmain hnone).1, (hmain hnone).2, nonmpi_work_keys m rangex rangey⟩, ?_⟩
  intro herr
  cases hopt : m.interpolatedModelFilename with
  | some f => rfl
  | none =>
    exfalso
    rw [(hmain hopt).1] at herr
    cases herr

theorem claim_C9_witness :
    0 < (testModel 1 1 "vz" none).nx ∧
      (nonmpi_work (testModel 1 1 "vz" none) none none).err = some "AttributeError" ∧
        (nonmpi_work (testModel 1 1 "vz" none) none none).stokesClosed = true := by
  have h := claim_C9_serial_close_bug (testModel 1 1 "vz" none) none none
    (by decide) (by decide)
  exact ⟨by decide, (h.1 rfl).1, (h.1 rfl).2.1⟩

/-! ### C5 - out-of-range sub-rectangles are not rejected up front -/

/-- C5 counterexample: on a 2x1 grid, the requested sub-rectangle
`x in [-1, 0)` lies outside the grid bounds, yet the distributed run is not
rejected: numpy index wrap-around maps `-1` to column `1`, the run completes
without error, the store is closed, and the pixel `(iy, ix) = (0, 1)` is the
one written. -/
theorem claim_C5_counterexample :
    (mpi_master_work (testModel 2 1 "vz" none) 1 (some (-1, 0)) none 1 [0, 0, 0, 0]).err =
        none ∧
      (mpi_master_work (testModel 2 1 "vz" none) 1 (some (-1, 0)) none 1 [0, 0, 0, 0]).hung =
        false ∧
      (mpi_master_work (testModel 2 1 "vz" none) 1
        (some (-1, 0)) none 1 [0, 0, 0, 0]).storeClosed = true ∧
      (mpi_master_work (testModel 2 1 "vz" none) 1
        (some (-1, 0)) none 1 [0, 0, 0, 0]).stokesWrites.map Prod.fst = [(0, 1)] := by
  exact ⟨rfl, rfl, rfl, rfl⟩

theorem handleMsg_ready_error (m : SirModel) (interp : Bool)
    (batches : List (List (Int × Int))) (ms : MasterState) (e : String)
    (hk : ms.taskIndex < batches.length)
    (he : taskFor m interp batches ms.taskIndex = Except.error e) :
    handleMsg m interp batches ms .ready = ({ ms with err := some e }, .ready) := by
  unfold handleMsg
  simp only [hk, if_true, he]

theorem sysRun_err_absorb (m : SirModel) (interp : Bool)
    (batches : List (List (Int × Int))) (numW : Nat)
    (s : MasterState × List WStatus) (sched : List Nat)
    (he : s.1.err.isSome = true) :
    sysRun m interp batches numW s sched = s := by
  induction sched with
  | nil => rfl
  | cons w sched ih =>
    unfold sysRun at *
    rw [List.foldl_cons]
    unfold sysStep
    rw [if_pos he]
    exact ih

theorem mapM_resolve_none (m : SirModel) (p : Int × Int) (l : List (Int × Int))
    (hp : resolvePix m p = none) :
    (p :: l).mapM (resolvePix m) = none := by
  rw [List.mapM_cons, hp]
  rfl

theorem resolvePix_none_of_high (m : SirModel) (p : Int × Int)
    (hp : (m.nx : Int) ≤ p.1) :
    resolvePix m p = none := by
  unfold resolvePix npIndex
  have h1 : ¬ (0 ≤ p.1 ∧ p.1 < (m.nx : Int)) := by omega
  have h2 : ¬ (-(m.nx : Int) ≤ p.1 ∧ p.1 < 0) := by omega
  rw [if_neg h1, if_neg h2]
  rfl

/-- C5 (amended): a requested x sub-rectangle lying entirely at or above the
upper grid bound is not rejected before anything happens: the partitioner
accepts it and the output store is created; the `IndexError` is raised only
when the first batch is fancy-indexed, which at least still precedes any
START message and any pixel write.  (Sub-rectangles with negative
coordinates are not rejected at all: they wrap around, see the
counterexample.) -/
theorem claim_C5_oob_not_rejected (m : SirModel) (batch : Nat) (x0 x1 : Int)
    (rangey : Option (Int × Int)) (numW : Nat) (w : Nat) (rest : List Nat)
    (bs : List (List (Int × Int)))
    (hok : partitionPixels m batch (some (x0, x1)) rangey = Except.ok bs)
    (hx0 : (m.nx : Int) ≤ x0)
    (hw : w < numW) :
    (mpi_master_work m batch (some (x0, x1)) rangey numW (w :: rest)).err =
        some "IndexError" ∧
      (mpi_master_work m batch (some (x0, x1)) rangey numW (w :: rest)).created = true ∧
      (mpi_master_work m batch (some (x0, x1)) rangey numW (w :: rest)).starts = [] ∧
      (mpi_master_work m batch (some (x0, x1)) rangey numW (w :: rest)).stokesWrites = [] ∧
      (mpi_master_work m batch (some (x0, x1)) rangey numW (w :: rest)).storeClosed = false := by
  have hB : 0 < bs.length := by
    rw [partition_length hok]
    exact (partition_ok_elim hok).2.1
  have hmem : bs.getD 0 [] ∈ bs := by
    rw [List.getD_eq_getElem?_getD, List.getElem?_eq_getElem hB]
    exact List.getElem_mem hB
  have hb0 : bs.getD 0 [] ≠ [] := partition_piece_ne_nil hok hmem
  have htf : ∀ interp, taskFor m interp bs 0 = Except.error "IndexError" := by
    intro interp
    cases hb : bs.getD 0 [] with
    | nil => exact absurd hb hb0
    | cons p l =>
      have hpmem : p ∈ bs.getD 0 [] := by rw [hb]; exact List.mem_cons_self _ _
      have hreq := batch_subset_requested hok hmem hpmem
      have hx := (mem_meshPixels hreq).1
      have hxv := mem_arange hx
      have hres : resolvePix m p = none := by
        apply resolvePix_none_of_high
        unfold requestedX at hxv
        omega
      unfold taskFor
      rw [hb]
      simp only [mapM_resolve_none m p l hres]
  have hstep : ∀ interp, sysStep m interp bs numW
      (initMaster, List.replicate numW WStatus.ready) w =
      ({ initMaster with err := some "IndexError" },
        List.replicate numW WStatus.ready) := by
    intro interp
    unfold sysStep
    rw [show (initMaster, List.replicate numW WStatus.ready).1.err.isSome = false from rfl]
    simp only [Bool.false_eq_true, if_false]
    rw [if_neg (show ¬ numW ≤ (initMaster,
      List.replicate numW WStatus.ready).1.closedWorkers by
        show ¬ numW ≤ 0
        omega)]
    have hwlen : w < (List.replicate numW WStatus.ready).length := by
      rw [List.length_replicate]
      exact hw
    obtain ⟨l, st, r, hws, hl⟩ := exists_split_at _ w hwlen
    have hst : st = WStatus.ready := by
      apply List.eq_of_mem_replicate (n := numW)
      rw [hws]
      exact List.mem_append.mpr (Or.inr (List.mem_cons_self _ _))
    subst hst
    show stepAt m interp bs (initMaster, List.replicate numW WStatus.ready).1
      (List.replicate numW WStatus.ready) w = _
    rw [hws, ← hl, stepAt_split]
    rw [handleMsg_ready_error m interp bs _ "IndexError" hB (htf interp)]
  have hrun : ∀ interp, sysRun m interp bs numW
      (initMaster, List.replicate numW WStatus.ready) (w :: rest) =
      ({ initMaster with err := some "IndexError" },
        List.replicate numW WStatus.ready) := by
    intro interp
    show List.foldl (sysStep m interp bs numW)
      (initMaster, List.replicate numW WStatus.ready) (w :: rest) = _
    rw [List.foldl_cons, hstep interp]
    exact sysRun_err_absorb m interp bs numW _ rest rfl
  unfold mpi_master_work
  simp only [hok]
  rw [hrun m.interpolatedModelFilename.isSome]
  exact ⟨rfl, rfl, rfl, rfl, rfl⟩

theorem claim_C5_witness :
    (mpi_master_work (testModel 2 1 "vz" none) 1 (some (2, 4)) none 1 [0, 0, 0, 0]).err =
        some "IndexError" ∧
      (mpi_master_work (testModel 2 1 "vz" none) 1 (some (2, 4)) none 1 [0, 0, 0, 0]).created =
        true ∧
      (mpi_master_work (testModel 2 1 "vz" none) 1 (some (2, 4)) none 1 [0, 0, 0, 0]).starts =
        [] ∧
      (mpi_master_work (testModel 2 1 "vz" none) 1
        (some (2, 4)) none 1 [0, 0, 0, 0]).stokesWrites = [] ∧
      (mpi_master_work (testModel 2 1 "vz" none) 1
        (some (2, 4)) none 1 [0, 0, 0, 0]).storeClosed = false := by
  exact claim_C5_oob_not_rejected (testModel 2 1 "vz" none) 1 2 4 none 1 0 [0, 0, 0]
    [[(2, 0)], [(3, 0)]] (by rfl) (by decide) (by decide)

/-! ### C1 - serial fallback versus distributed path -/

/-- The batched entry point computes, pixel by pixel, exactly what the
single-pixel entry point computes on the corresponding columns (the spec's
interface contract for `synth2d`; exact equality here because the embedding
works over exact rationals, so the floating-point summation-order caveat is
vacuous). -/
def Synth2dAgrees (m : SirModel) : Prop :=
  ∀ ts ps rs vs b1s b2s b3s tas nes flag,
    m.synth2d ts ps rs vs b1s b2s b3s tas nes flag =
      ((List.range ts.length).map fun i =>
          (m.synth (ts.getD i []) (ps.getD i []) (rs.getD i []) (vs.getD i [])
            (b1s.getD i []) (b2s.getD i []) (b3s.getD i []) (tas.getD i [])
            (nes.getD i []) flag).1,
        (List.range ts.length).map fun i =>
          (m.synth (ts.getD i []) (ps.getD i []) (rs.getD i []) (vs.getD i [])
            (b1s.getD i []) (b2s.getD i []) (b3s.getD i []) (tas.getD i [])
            (nes.getD i []) flag).2)

theorem getD_map_lt {α β : Type} (f : α → β) (l : List α) (i : Nat) (d : β) (d2 : α)
    (hi : i < l.length) : (l.map f).getD i d = f (l.getD i d2) := by
  rw [List.getD_eq_getElem?_getD, List.getElem?_map, List.getElem?_eq_getElem hi,
    List.getD_eq_getElem?_getD, List.getElem?_eq_getElem hi]
  rfl

theorem zipWith_self_map {α β γ : Type} (g : α → β → γ) (F : α → β) (rp : List α) :
    List.zipWith g rp (rp.map F) = rp.map fun q => g q (F q) := by
  induction rp with
  | nil => rfl
  | cons a rp ih => simp only [List.map_cons, List.zipWith_cons_cons, ih]

theorem map_range_getD {α β : Type} (d : α) (F : α → β) :
    ∀ rp : List α,
      (List.range rp.length).map (fun i => F (rp.getD i d)) = rp.map F := by
  intro rp
  induction rp with
  | nil => rfl
  | cons a rp ih =>
    rw [List.length_cons, List.range_succ_eq_map, List.map_cons, List.map_map,
      List.map_cons]
    congr 1

theorem taskOf_sVz (m : SirModel) (interp : Bool) (bs : List (List (Int × Int)))
    (k : Nat) (rp : List (Nat × Nat)) :
    (taskOf m interp bs k rp).slices.sVz = rp.map fun q => serialVz m q.1 q.2 := by
  unfold taskOf serialVz sliceQ
  by_cases hvz : m.vzType = "vz"
  · simp only [hvz, if_pos]
  · simp only [hvz, if_false]
    rw [List.zipWith_map, List.zipWith_same]

/-- One stokes write record per pixel: its storage key and the four channel
rows of the single-pixel synthesis at that pixel (with interpolation on). -/
def pixRecord (m : SirModel) (q : Nat × Nat) : (Nat × Nat) × ChannelRows :=
  (q, rowsOf (serialSynthAt m true q.1 q.2).1)

/-- With interpolation requested, valid ranges and an agreeing batched entry
point, the DONE-message writes of batch `k` are exactly the serial per-pixel
records of its pixels. -/
theorem taskRecs_of_agrees (m : SirModel) {batch : Nat}
    {rangex rangey : Option (Int × Int)} {bs : List (List (Int × Int))}
    (hok : partitionPixels m batch rangex rangey = Except.ok bs)
    (hv : ValidRanges m rangex rangey) (hag : Synth2dAgrees m)
    (k : Nat) (hk : k < bs.length) :
    (taskRecs m true bs k).1 =
      (bs.getD k []).map fun p => pixRecord m (storageOf p) := by
  have hmem : bs.getD k [] ∈ bs := by
    rw [List.getD_eq_getElem?_getD, List.getElem?_eq_getElem hk]
    exact List.getElem_mem hk
  have hrp : (bs.getD k []).mapM (resolvePix m) =
      some ((bs.getD k []).map storageOf) := by
    apply mapM_resolve_all
    intro p hp
    exact resolve_requested_of_valid hv (batch_subset_requested hok hmem hp)
  have htf := taskFor_ok m true bs k _ hrp
  have hdr := doneRecs_ok m (workerReply m
      (taskOf m true bs k ((bs.getD k []).map storageOf)))
    ((bs.getD k []).map storageOf) (by rw [workerReply_pix]; exact hrp)
  have hblocks : (workerReply m (taskOf m true bs k
      ((bs.getD k []).map storageOf))).stokes =
      ((bs.getD k []).map storageOf).map fun q => (serialSynthAt m true q.1 q.2).1 := by
    show (m.synth2d (sliceQ m m.T ((bs.getD k []).map storageOf))
        (sliceQ m m.P ((bs.getD k []).map storageOf))
        (sliceQ m m.rho ((bs.getD k []).map storageOf))
        (taskOf m true bs k ((bs.getD k []).map storageOf)).slices.sVz
        (sliceQ m m.Bx ((bs.getD k []).map storageOf))
        (sliceQ m m.By ((bs.getD k []).map storageOf))
        (sliceQ m m.Bz ((bs.getD k []).map storageOf))
        (sliceQ m m.tau500 ((bs.getD k []).map storageOf))
        (sliceQ m m.ne ((bs.getD k []).map storageOf)) true).1 = _
    rw [hag, taskOf_sVz]
    show (List.range (sliceQ m m.T ((bs.getD k []).map storageOf)).length).map _ = _
    rw [sliceQ_length]
    have hcongr : ∀ i ∈ List.range ((bs.getD k []).map storageOf).length,
        (m.synth
          ((sliceQ m m.T ((bs.getD k []).map storageOf)).getD i [])
          ((sliceQ m m.P ((bs.getD k []).map storageOf)).getD i [])
          ((sliceQ m m.rho ((bs.getD k []).map storageOf)).getD i [])
          ((((bs.getD k []).map storageOf).map fun q => serialVz m q.1 q.2).getD i [])
          ((sliceQ m m.Bx ((bs.getD k []).map storageOf)).getD i [])
          ((sliceQ m m.By ((bs.getD k []).map storageOf)).getD i [])
          ((sliceQ m m.Bz ((bs.getD k []).map storageOf)).getD i [])
          ((sliceQ m m.tau500 ((bs.getD k []).map storageOf)).getD i [])
          ((sliceQ m m.ne ((bs.getD k []).map storageOf)).getD i []) true).1 =
        (fun q => (serialSynthAt m true q.1 q.2).1)
          (((bs.getD k []).map storageOf).getD i ((0 : Nat), (0 : Nat))) := by
      intro i hi
      have hi2 := List.mem_range.mp hi
      unfold sliceQ
      rw [getD_map_lt (fun p => m.col m.T p.1 p.2) _ i [] ((0 : Nat), (0 : Nat)) hi2,
        getD_map_lt (fun p => m.col m.P p.1 p.2) _ i [] ((0 : Nat), (0 : Nat)) hi2,
        getD_map_lt (fun p => m.col m.rho p.1 p.2) _ i [] ((0 : Nat), (0 : Nat)) hi2,
        getD_map_lt (fun q => serialVz m q.1 q.2) _ i [] ((0 : Nat), (0 : Nat)) hi2,
        getD_map_lt (fun p => m.col m.Bx p.1 p.2) _ i [] ((0 : Nat), (0 : Nat)) hi2,
        getD_map_lt (fun p => m.col m.By p.1 p.2) _ i [] ((0 : Nat), (0 : Nat)) hi2,
        getD_map_lt (fun p => m.col m.Bz p.1 p.2) _ i [] ((0 : Nat), (0 : Nat)) hi2,
        getD_map_lt (fun p => m.col m.tau500 p.1 p.2) _ i [] ((0 : Nat), (0 : Nat)) hi2,
        getD_map_lt (fun p => m.col m.ne p.1 p.2) _ i [] ((0 : Nat), (0 : Nat)) hi2]
      rfl
    rw [List.map_congr_left hcongr]
    exact map_range_getD ((0 : Nat), (0 : Nat))
      (fun q => (serialSynthAt m true q.1 q.2).1) ((bs.getD k []).map storageOf)
  simp only [taskRecs, htf, hdr]
  rw [hblocks, zipWith_self_map]
  rw [List.map_map]
  apply List.map_congr_left
  intro p hp
  rfl

/-- With the full grid requested (`rangex = rangey = None`), the storage
locations of the requested pixels, in dispatch order, are exactly the serial
raster order. -/
theorem storage_range_none (m : SirModel) :
    (requestedPixels m none none).map storageOf = serialGrid m := by
  unfold requestedPixels meshPixels requestedX requestedY serialGrid arange
  rw [List.map_flatMap, List.flatMap_map]
  apply List.flatMap_congr
  intro j hj
  rw [List.map_map, List.map_map]
  apply List.map_congr_left
  intro i hi
  have hj2 := List.mem_range.mp hj
  have hi2 := List.mem_range.mp hi
  show storageOf (0 + (i : Int), 0 + (j : Int)) = ((j : Nat), (i : Nat))
  unfold storageOf
  simp

/-- C1 (amended): with no sub-rectangle restriction, interpolation requested,
and a batched entry point that agrees pixelwise with the single-pixel entry
point, a completed distributed run writes exactly the spectra of the serial
run, pixel for pixel (the write lists are permutations).  Without these
restrictions the claim fails: the serial path ignores `rangex`/`rangey`
altogether, and with interpolation off it passes the raw `vz` column to the
physics model where the distributed path passes `vz / rho`. -/
theorem claim_C1_serial_distributed_agree (m : SirModel) (batch : Nat) (numW : Nat)
    (sched : List Nat) (bs : List (List (Int × Int)))
    (hi : m.interpolatedModelFilename.isSome = true)
    (hag : Synth2dAgrees m)
    (hok : partitionPixels m batch none none = Except.ok bs)
    (herr : (mpi_master_work m batch none none numW sched).err = none)
    (hhung : (mpi_master_work m batch none none numW sched).hung = false) :
    ((mpi_master_work m batch none none numW sched).stokesWrites).Perm
      ((nonmpi_work m none none).stokesWrites) := by
  have hv : ValidRanges m none none := by
    constructor <;>
      (intro i hi2
       have hb := mem_arange hi2
       constructor <;> omega)
  obtain ⟨-, -, -, -, -, -, -, hpermS, -⟩ :=
    mpi_master_work_complete m batch none none numW sched bs hok
      (sliceable_of_valid hok hv) herr hhung
  rw [hi] at hpermS
  have hcongr : ∀ k ∈ List.range bs.length,
      (taskRecs m true bs k).1 =
        (fun b => b.map fun p => pixRecord m (storageOf p)) (bs.getD k []) := by
    intro k hk
    exact taskRecs_of_agrees m hok hv hag k (List.mem_range.mp hk)
  rw [List.flatMap_congr hcongr, flatMap_range_getD, ← List.map_flatten,
    partition_flatten hok] at hpermS
  have hser : (requestedPixels m none none).map (fun p => pixRecord m (storageOf p)) =
      (nonmpi_work m none none).stokesWrites := by
    rw [nonmpi_work_stokesWrites, hi]
    have h1 : (requestedPixels m none none).map (fun p => pixRecord m (storageOf p)) =
        ((requestedPixels m none none).map storageOf).map (pixRecord m) := by
      rw [List.map_map]
      exact List.map_congr_left fun p _ => rfl
    rw [h1, storage_range_none]
    apply List.map_congr_left
    intro q hq
    rfl
  rw [hser] at hpermS
  exact hpermS

/-- C1 counterexample: on a 1x1 grid with `vz_type` not equal to `vz`,
`rho = 2`, `vz = 6` and no interpolation, the serial path feeds the physics
model the raw `vz = 6` (line 170) while the distributed path feeds
`vz / rho = 3` (line 299); the spectra written for the single pixel differ,
so the two paths do not produce the same output. -/
theorem claim_C1_counterexample :
    (nonmpi_work (testModel 1 1 "p" none) none none).stokesWrites =
        [((0, 0), { rowI := [6], rowQ := [0], rowU := [0], rowV := [0] })] ∧
      (mpi_master_work (testModel 1 1 "p" none) 1 none none 1 [0, 0, 0, 0]).stokesWrites =
        [((0, 0), { rowI := [(6 : ℚ) / 2], rowQ := [0], rowU := [0], rowV := [0] })] ∧
      (nonmpi_work (testModel 1 1 "p" none) none none).stokesWrites ≠
        (mpi_master_work (testModel 1 1 "p" none) 1 none none 1 [0, 0, 0, 0]).stokesWrites := by
  have h1 : (nonmpi_work (testModel 1 1 "p" none) none none).stokesWrites =
      [((0, 0), { rowI := [6], rowQ := [0], rowU := [0], rowV := [0] })] := by rfl
  have h2 : (mpi_master_work (testModel 1 1 "p" none) 1 none none 1 [0, 0, 0, 0]).stokesWrites =
      [((0, 0), { rowI := [(6 : ℚ) / 2], rowQ := [0], rowU := [0], rowV := [0] })] := by
    rfl
  have hne : (6 : ℚ) ≠ 6 / 2 := by norm_num
  refine ⟨h1, h2, ?_⟩
  rw [h1, h2]
  simp [hne]

theorem claim_C1_witness :
    ((mpi_master_work (testModel 1 1 "p" (some "tau.h5")) 1 none none 1
        [0, 0, 0, 0]).stokesWrites).Perm
      ((nonmpi_work (testModel 1 1 "p" (some "tau.h5")) none none).stokesWrites) := by
  exact claim_C1_serial_distributed_agree (testModel 1 1 "p" (some "tau.h5")) 1 1
    [0, 0, 0, 0] [[(0, 0)]] (by rfl)
    (by intro ts ps rs vs b1s b2s b3s tas nes flag; rfl)
    (by rfl) (by rfl) (by rfl)

end ParSir
